import Mathlib

/-
Shallow embedding of the svg-motion virtual animation/export pipeline
(src/lib/VirtualAnimationRenderer.ts, src/lib/CanvasFrameCompositor.ts,
src/lib/VideoExporter.ts, src/lib/MP4ExportManager.ts).

JavaScript numbers are modelled as rationals plus NaN (`JNum`): the modelled
code never produces Infinity on the paths the claims exercise, and the only
NaN source is an absent keyframe `duration` (`undefined` arithmetic).
The transcendental easing curve 0.5*(1-Math.cos(p*PI)) used for
"easeInOut"/"easeInOutSine" is floating-point/transcendental and is
abstracted as an explicit function parameter `sine`; every theorem below is
proved for an arbitrary such function, hence in particular for the real one.
-/

namespace SvgMotion

/- Batteries marks the `Rat` arithmetic operations `@[irreducible]` so that
proofs do not unfold them; concrete evaluation by `decide`/`rfl` below needs
them restored to default transparency (elaboration-only; the kernel is
unaffected). -/
attribute [local semireducible] Rat.add Rat.mul Rat.sub Rat.inv

/-- A JavaScript number: a rational value or NaN. -/
inductive JNum where
  | nan : JNum
  | val : ℚ → JNum
deriving DecidableEq

/-- JS `+` on numbers: NaN propagates. -/
def JNum.add : JNum → JNum → JNum
  | JNum.val a, JNum.val b => JNum.val (a + b)
  | _, _ => JNum.nan

/-- JS `-` on numbers: NaN propagates. -/
def JNum.sub : JNum → JNum → JNum
  | JNum.val a, JNum.val b => JNum.val (a - b)
  | _, _ => JNum.nan

/-- JS `*` on numbers: NaN propagates. -/
def JNum.mul : JNum → JNum → JNum
  | JNum.val a, JNum.val b => JNum.val (a * b)
  | _, _ => JNum.nan

/-- JS `/` on numbers: NaN propagates.  Division by zero is mapped to NaN:
in the modelled code the only division is `(t - start) / duration` inside a
branch where `start <= t <= start + duration`, so a zero divisor forces a
zero dividend (`0/0 = NaN` in JS); the `x/0 = Infinity, x != 0` case is
unreachable there. -/
def JNum.div : JNum → JNum → JNum
  | JNum.val a, JNum.val b => if b = 0 then JNum.nan else JNum.val (a / b)
  | _, _ => JNum.nan

/-- `Math.max`: NaN if either argument is NaN; otherwise the larger value
(spelled as an `if` for executability). -/
def JNum.jsMax : JNum → JNum → JNum
  | JNum.val a, JNum.val b => JNum.val (if a ≤ b then b else a)
  | _, _ => JNum.nan

/-- JS `<=` comparison: false whenever an operand is NaN. -/
def JNum.jsLe : JNum → JNum → Bool
  | JNum.val a, JNum.val b => decide (a ≤ b)
  | _, _ => false

/-- JS `>=` comparison: false whenever an operand is NaN. -/
def JNum.jsGe : JNum → JNum → Bool
  | JNum.val a, JNum.val b => decide (b ≤ a)
  | _, _ => false

/-- JS `>` comparison: false whenever an operand is NaN. -/
def JNum.jsGt : JNum → JNum → Bool
  | JNum.val a, JNum.val b => decide (b < a)
  | _, _ => false

/-- A JS value as it occurs in a keyframe `to` field: number or string. -/
inductive JSVal where
  | num : JNum → JSVal
  | str : String → JSVal
deriving DecidableEq

/-- A keyframe `ease` field: a named easing (string) or a spring descriptor
object (any non-string hits the `switch` default, i.e. linear). -/
inductive EaseVal where
  | name : String → EaseVal
  | spring : EaseVal
deriving DecidableEq

/-- One keyframe segment (`{ to, duration?, delay?, ease? }`).  An absent
`duration` is `undefined` in JS and behaves as NaN in arithmetic; an absent
`delay` is defaulted by `step.delay || 0` at use sites. -/
structure Keyframe where
  /-- the `to` field (`to` is reserved in Lean) -/
  toVal : JSVal
  duration : Option ℚ
  delay : Option ℚ
  ease : Option EaseVal
deriving DecidableEq

/-- An animation entry (`{ targets, params, position }`) in the well-typed
(list-valued params) form that `VirtualAnimationRenderer` assumes. -/
structure Animation where
  targets : String
  params : List (String × List Keyframe)
  position : ℚ
deriving DecidableEq

/-- `step.delay || 0`: absent delay becomes 0 (for a present rational delay
`d`, `d || 0` is `d`, also when `d = 0`). -/
def jsOrZero : Option ℚ → ℚ
  | some d => d
  | none => 0

/-- `step.duration` used in arithmetic: absent (`undefined`) behaves as NaN. -/
def durationJ : Option ℚ → JNum
  | some q => JNum.val q
  | none => JNum.nan

/-- `step.ease || 'linear'`: absent easing (and the falsy empty string)
defaults to `'linear'`. -/
def easeOrLinear : Option EaseVal → EaseVal
  | some (EaseVal.name s) => if s = ("") then EaseVal.name ("linear") else EaseVal.name s
  | some EaseVal.spring => EaseVal.spring
  | none => EaseVal.name ("linear")

/-- `VirtualAnimationRenderer.applyEasing`.  The `easeInOut`/`easeInOutSine`
branch computes `0.5 * (1 - Math.cos(progress * Math.PI))`, which is
transcendental; it is abstracted as the parameter `sine`. -/
def applyEasing (sine : JNum → JNum) (progress : JNum) (easing : EaseVal) : JNum :=
  match easing with
  | EaseVal.name s =>
    if s = ("linear") then progress
    else if s = ("easeInOut") || s = ("easeInOutSine") then sine progress
    else if s = ("easeIn") then progress.mul progress
    else if s = ("easeOut") then
      (JNum.val 1).sub (((JNum.val 1).sub progress).mul ((JNum.val 1).sub progress))
    else progress
  | EaseVal.spring => progress

/-- The segment-walking loop of
`VirtualAnimationRenderer.calculateParameterValueAtTime`, with the mutable
`currentTime` and `lastValue` threaded explicitly. -/
def calculateParameterValueAtTimeAux (sine : JNum → JNum) (relativeTime : ℚ) :
    List Keyframe → JNum → Option JSVal → Option JSVal
  | [], _, lastValue => lastValue
  | step :: rest, currentTime, lastValue =>
    let stepStart := currentTime.add (JNum.val (jsOrZero step.delay))
    let stepEnd := stepStart.add (durationJ step.duration)
    if (JNum.val relativeTime).jsGe stepStart && (JNum.val relativeTime).jsLe stepEnd then
      let stepProgress := ((JNum.val relativeTime).sub stepStart).div (durationJ step.duration)
      let easedProgress := applyEasing sine stepProgress (easeOrLinear step.ease)
      match lastValue, step.toVal with
      | some (JSVal.num lv), JSVal.num tv =>
        some (JSVal.num (lv.add ((tv.sub lv).mul easedProgress)))
      | _, _ => if easedProgress.jsGt (JNum.val (1/2)) then some step.toVal else lastValue
    else if (JNum.val relativeTime).jsGt stepEnd then
      calculateParameterValueAtTimeAux sine relativeTime rest stepEnd (some step.toVal)
    else lastValue

/-- `VirtualAnimationRenderer.calculateParameterValueAtTime(steps, relativeTime)`:
`null` is `none`. -/
def calculateParameterValueAtTime (sine : JNum → JNum) (steps : List Keyframe)
    (relativeTime : ℚ) : Option JSVal :=
  calculateParameterValueAtTimeAux sine relativeTime steps (JNum.val 0) none

/-- The inner loop of `calculateTotalDuration`:
`animationEnd = position; for step: animationEnd += (step.delay || 0) + step.duration`. -/
def animationEndOf (position : ℚ) (steps : List Keyframe) : JNum :=
  steps.foldl
    (fun acc step => acc.add ((JNum.val (jsOrZero step.delay)).add (durationJ step.duration)))
    (JNum.val position)

/-- The `maxTime` accumulation of `calculateTotalDuration`. -/
def maxTimeOf (animations : List Animation) : JNum :=
  animations.foldl
    (fun m a => a.params.foldl (fun m2 p => m2.jsMax (animationEndOf a.position p.2)) m)
    (JNum.val 0)

/-- JS `x || d` for a number `x`: NaN and 0 are falsy. -/
def jsOrDefault (x : JNum) (d : ℚ) : ℚ :=
  match x with
  | JNum.nan => d
  | JNum.val q => if q = 0 then d else q

/-- `VirtualAnimationRenderer.calculateTotalDuration`:
`this.totalDuration = maxTime || 1000`. -/
def calculateTotalDuration (animations : List Animation) : ℚ :=
  jsOrDefault (maxTimeOf animations) 1000

/-- An element of the virtual SVG document tree: tag name, ordered attribute
list (serialization order; `setAttribute` updates in place or appends), and
child elements.  Text nodes do not occur in the scenarios modelled. -/
structure Elem where
  tag : String
  attrs : List (String × String)
  children : List Elem

/-- Keyed update with JS object / DOM `setAttribute` semantics: an existing
key keeps its position and gets the new value; a new key is appended. -/
def setKey (l : List (String × String)) (k v : String) : List (String × String) :=
  if (l.find? (fun p => p.1 = k)).isSome then
    l.map (fun p => if p.1 = k then (k, v) else p)
  else l ++ [(k, v)]

/-- `Element.getAttribute` (none for a missing attribute). -/
def Elem.getAttribute (e : Elem) (k : String) : Option String :=
  (e.attrs.find? (fun p => p.1 = k)).map (fun p => p.2)

/-- `Element.setAttribute`. -/
def Elem.setAttribute (e : Elem) (k v : String) : Elem :=
  { e with attrs := setKey e.attrs k v }

/-- The attributes removed by `resetElementStates` (one `removeAttribute`
call per name; the call order does not matter, so this is a filter). -/
def resetAttributeNames : List String :=
  ["transform", "opacity", "fill", "stroke", "stroke-width",
   "r", "rx", "ry", "cx", "cy", "x", "y", "width", "height"]

/-- Drop the reset attributes from one element's attribute list. -/
def stripResetAttrs (attrs : List (String × String)) : List (String × String) :=
  attrs.filter (fun p => !(resetAttributeNames.contains p.1))

mutual
/-- Strip the reset attributes from an element and all its descendants. -/
def resetDeep : Elem → Elem
  | ⟨t, a, cs⟩ => ⟨t, stripResetAttrs a, resetDeepList cs⟩
/-- `resetDeep` mapped over a child list. -/
def resetDeepList : List Elem → List Elem
  | [] => []
  | c :: cs => resetDeep c :: resetDeepList cs
end

/-- `VirtualAnimationRenderer.resetElementStates`:
`this.svgElement.querySelectorAll('*')` selects the descendants of the root
only — the root `svg` element itself is never reset. -/
def resetElementStates (root : Elem) : Elem :=
  ⟨root.tag, root.attrs, resetDeepList root.children⟩

/-- The simple-selector subset of CSS matching used by the timelines the
claims exercise: `.cls` matches a class token, `#id` an id, anything else a
tag name.  (Invalid selectors throw in the source and are caught, yielding
no targets; they are outside this subset.) -/
def matchesSelector (sel : String) (e : Elem) : Bool :=
  if sel.startsWith (".") then
    (((e.getAttribute ("class")).getD ("")).splitOn (" ")).contains (sel.drop 1)
  else if sel.startsWith ("#") then
    (e.getAttribute ("id")) == some (sel.drop 1)
  else e.tag == sel

mutual
/-- Apply `f` to every node of a subtree (root included) that matches `p`.
The DOM code computes the static `querySelectorAll` node list first and
then mutates; this interleaved form is equivalent because every applied `f`
only rewrites the node's own attributes (never its children), and `p` only
reads the node's own tag/attributes — the match is computed on the node
before `f` touches it. -/
def applyWhereDeep (p : Elem → Bool) (f : Elem → Elem) : Elem → Elem
  | Elem.mk t a cs =>
    let e2 := if p ⟨t, a, cs⟩ then f ⟨t, a, cs⟩ else Elem.mk t a cs
    ⟨e2.tag, e2.attrs, applyWhereDeepList p f cs⟩
/-- `applyWhereDeep` mapped over a child list. -/
def applyWhereDeepList (p : Elem → Bool) (f : Elem → Elem) : List Elem → List Elem
  | [] => []
  | c :: cs => applyWhereDeep p f c :: applyWhereDeepList p f cs
end

mutual
/-- Whether some strict descendant of the element matches `p` (used for the
`targets.length === 0` early return of `applyAnimationAtTime`). -/
def anyDescendant (p : Elem → Bool) : Elem → Bool
  | ⟨_, _, cs⟩ => anyDescendantList p cs
/-- Whether some element of the list, or one of its descendants, matches. -/
def anyDescendantList (p : Elem → Bool) : List Elem → Bool
  | [] => false
  | c :: cs => p c || anyDescendant p c || anyDescendantList p cs
end

/-- `resolveTargets` + element-wise application: the literal `"svg"` selects
the document root; any other selector is matched against the root's strict
descendants (`querySelectorAll` never returns the element it is called on). -/
def applyToTargets (root : Elem) (sel : String) (f : Elem → Elem) : Elem :=
  if sel = ("svg") then f root
  else ⟨root.tag, root.attrs, applyWhereDeepList (matchesSelector sel) f root.children⟩

/-- A word character of the regex `\w`. -/
def isWordChar (c : Char) : Bool := c.isAlphanum || c == '_'

/-- The scanning loop of the global regex `/(\w+)\s*\(([^)]+)\)/g` used by
`parseTransformString`: at each position try to read a maximal word run,
optional whitespace, `(`, a nonempty run of non-`)` characters, and `)`;
on failure advance one position (backtracking a shorter `\w+` can never
succeed, since the following character would still be a word character, not
`(`).  Fuel is the length of the scanned list. -/
def scanTransformsAux : ℕ → List Char → List (String × String)
  | 0, _ => []
  | _ + 1, [] => []
  | fuel + 1, c :: rest =>
    if isWordChar c then
      let nameRun := (c :: rest).takeWhile isWordChar
      let afterName := (c :: rest).dropWhile isWordChar
      let afterSpaces := afterName.dropWhile (fun ch => ch.isWhitespace)
      match afterSpaces with
      | '(' :: afterParen =>
        let valueRun := afterParen.takeWhile (fun ch => ch != ')')
        let afterValue := afterParen.dropWhile (fun ch => ch != ')')
        match afterValue with
        | ')' :: remaining =>
          if valueRun.isEmpty then scanTransformsAux fuel rest
          else (String.mk nameRun, String.mk valueRun) :: scanTransformsAux fuel remaining
        | _ => scanTransformsAux fuel rest
      | _ => scanTransformsAux fuel rest
    else scanTransformsAux fuel rest

/-- `VirtualAnimationRenderer.parseTransformString`: successive matches are
assigned into a JS object (`transforms[name] = value`), i.e. folded with
keyed update. -/
def parseTransformString (s : String) : List (String × String) :=
  (scanTransformsAux s.length s.data).foldl (fun m kv => setKey m kv.1 kv.2) []

/-- `Object.entries(transforms).map(([t, v]) => t + '(' + v + ')').join(' ')`. -/
def serializeTransforms : List (String × String) → String
  | [] => ""
  | [kv] => kv.1 ++ ("(") ++ kv.2 ++ (")")
  | kv :: rest => kv.1 ++ ("(") ++ kv.2 ++ (")") ++ (" ") ++ serializeTransforms rest

/-- `VirtualAnimationRenderer.applyTransform`. -/
def applyTransform (e : Elem) (transformType : String) (value : String) : Elem :=
  let currentTransform := (e.getAttribute ("transform")).getD ("")
  let transforms := setKey (parseTransformString currentTransform) transformType value
  e.setAttribute ("transform") (serializeTransforms transforms)

/-- JS number-to-string conversion, for the integral values the claims use
(`String(45) = "45"`); the decimal formatting of non-integral doubles is
floating-point behaviour and is not relied on by any theorem below. -/
def jnumToString : JNum → String
  | JNum.nan => ("NaN")
  | JNum.val q => if q.den = 1 then toString q.num else toString q

/-- `String(value)` for a keyframe value. -/
def jsString : JSVal → String
  | JSVal.num n => jnumToString n
  | JSVal.str s => s

/-- The per-element body of
`VirtualAnimationRenderer.applyParameterToElements` (the `switch` on the
parameter name). -/
def applyParameterToElement (e : Elem) (paramKey : String) (value : JSVal) : Elem :=
  if paramKey = ("opacity") then e.setAttribute ("opacity") (jsString value)
  else if paramKey = ("rotate") then applyTransform e ("rotate") (jsString value ++ ("deg"))
  else if paramKey = ("translateX") || paramKey = ("x") then
    applyTransform e ("translateX") (jsString value ++ ("px"))
  else if paramKey = ("translateY") || paramKey = ("y") then
    applyTransform e ("translateY") (jsString value ++ ("px"))
  else if paramKey = ("scale") then applyTransform e ("scale") (jsString value)
  else if paramKey = ("fill") then e.setAttribute ("fill") (jsString value)
  else if paramKey = ("stroke") then e.setAttribute ("stroke") (jsString value)
  else if paramKey = ("r") then e.setAttribute ("r") (jsString value)
  else e.setAttribute paramKey (jsString value)

/-- `VirtualAnimationRenderer.applyAnimationAtTime` for the list-valued
params form.  (The `targets.length === 0` early return is omitted here: with
no matching target the per-target application is a no-op on the tree, so the
result is identical; the dynamic form below keeps the early return, where it
is observable because it skips the keyframe iteration.) -/
def applyAnimationAtTime (sine : JNum → JNum) (animation : Animation) (timeMs : ℚ)
    (root : Elem) : Elem :=
  let relativeTime := timeMs - animation.position
  if relativeTime < 0 then root
  else
    animation.params.foldl (fun r p =>
      match calculateParameterValueAtTime sine p.2 relativeTime with
      | none => r
      | some v => applyToTargets r animation.targets
          (fun e => applyParameterToElement e p.1 v)) root

/-- `VirtualAnimationRenderer.seekToTime`: reset, then apply every
animation's state at the given time, in timeline order. -/
def seekToTime (sine : JNum → JNum) (animations : List Animation) (timeMs : ℚ)
    (root : Elem) : Elem :=
  animations.foldl (fun r a => applyAnimationAtTime sine a timeMs r)
    (resetElementStates root)

mutual
/-- `XMLSerializer.serializeToString`, restricted to the element/attribute
trees modelled here (attributes in list order, children in order). -/
def serializeElem : Elem → String
  | ⟨t, a, cs⟩ =>
    ("<") ++ t
      ++ String.join (a.map (fun kv => (" ") ++ kv.1 ++ ("=\"") ++ kv.2 ++ ("\"")))
      ++ (">") ++ serializeChildren cs ++ ("</") ++ t ++ (">")
/-- Serialization of a child list, in order. -/
def serializeChildren : List Elem → String
  | [] => ""
  | c :: cs => serializeElem c ++ serializeChildren cs
end

/-- `Math.ceil` on a rational, in executable form (equal to `Int.ceil`,
see `mathCeil_eq` below). -/
def mathCeil (q : ℚ) : ℤ := -((-q).num / ((-q).den : ℤ))

/-- One yielded frame (`FrameData`). -/
structure FrameData where
  svgContent : String
  timestamp : ℚ
  frameNumber : ℕ
deriving DecidableEq

/-- The frame loop of `generateFrames`: the document is mutated in place by
each `seekToTime`, so the state is threaded and returned. -/
def generateFramesAux (sine : JNum → JNum) (animations : List Animation)
    (frameInterval : ℚ) : List ℕ → Elem → List FrameData × Elem
  | [], doc => ([], doc)
  | frame :: rest, doc =>
    let timestamp := (frame : ℚ) * frameInterval
    let doc2 := seekToTime sine animations timestamp doc
    let out := generateFramesAux sine animations frameInterval rest doc2
    (⟨serializeElem doc2, timestamp, frame⟩ :: out.1, out.2)

/-- `for (let frame = 0; frame <= totalFrames; frame++)`. -/
def frameIndexList (totalFrames : ℤ) : List ℕ :=
  if totalFrames < 0 then [] else List.range (totalFrames.toNat + 1)

/-- `VirtualAnimationRenderer.generateFrames(fps)`, with the renderer's
`this.totalDuration` and the backing document passed explicitly; returns the
yielded frames and the document state the generator leaves behind. -/
def generateFrames (sine : JNum → JNum) (animations : List Animation)
    (totalDuration : ℚ) (fps : ℚ) (root : Elem) : List FrameData × Elem :=
  let frameInterval := 1000 / fps
  let totalFrames : ℤ := mathCeil (totalDuration / frameInterval)
  generateFramesAux sine animations frameInterval (frameIndexList totalFrames) root

/-- `VirtualAnimationRenderer.getFrameCount(fps)`. -/
def getFrameCount (totalDuration fps : ℚ) : ℤ :=
  mathCeil (totalDuration / (1000 / fps))

/-- `ExportOptions`. -/
structure ExportOptions where
  width : ℚ
  height : ℚ
  fps : ℚ
  duration : ℚ
  format : String
  quality : Option ℚ
deriving DecidableEq

/-- `validateExportOptions` (CanvasFrameCompositor module): the error
messages pushed, in push order. -/
def validateExportOptions (options : ExportOptions) : List String :=
  (if options.width ≤ 0 ∨ 4096 < options.width then
    [("Width must be between 1 and 4096 pixels")] else [])
  ++ (if options.height ≤ 0 ∨ 4096 < options.height then
    [("Height must be between 1 and 4096 pixels")] else [])
  ++ (if options.fps ≤ 0 ∨ 120 < options.fps then
    [("FPS must be between 1 and 120")] else [])
  ++ (if options.duration ≤ 0 ∨ 300000 < options.duration then
    [("Duration must be between 1ms and 5 minutes")] else [])
  ++ (match options.quality with
      | some q => if q < 0 ∨ 1 < q then [("Quality must be between 0 and 1")] else []
      | none => [])
  ++ (if !(["webm", "mp4"].contains options.format) then
    [("Format must be one of: webm, mp4")] else [])

/-- Progress phases of `ExportProgress`. -/
inductive Phase where
  | setup
  | rendering
  | encoding
  | complete
  | error
deriving DecidableEq

/-- One `onProgress` invocation, reduced to the fields the claims are about
(`currentFrame`/`totalFrames`/`message` are dropped). -/
structure ProgressEvent where
  phase : Phase
  progress : ℚ
deriving DecidableEq

/-- An `onProgress` wrapper `p => base + p * scale` as installed by
`MP4ExportManager.exportAnimation` around the compositor (0.2 + p*0.6) and
around the video exporter (0.8 + p*0.2). -/
def remapProgress (base scale : ℚ) (e : ProgressEvent) : ProgressEvent :=
  { e with progress := base + e.progress * scale }

/-- The loop of `CanvasFrameCompositor.renderFrames`: after collecting all
frames eagerly, each frame `i` is preceded by a `rendering` event with
progress `i / totalFrames`.  The result pairs each yielded frame with the
event emitted just before it (the async generator emits lazily, when the
consumer pulls). -/
def renderFramesAux (i totalFrames : ℕ) :
    List FrameData → List (ProgressEvent × FrameData)
  | [] => []
  | f :: rest =>
    (⟨Phase.rendering, (i : ℚ) / (totalFrames : ℚ)⟩, f)
      :: renderFramesAux (i + 1) totalFrames rest

/-- `CanvasFrameCompositor.renderFrames` on an already-collected frame list
(decode failures are outside the modelled success path). -/
def renderFramesEvents (frames : List FrameData) : List (ProgressEvent × FrameData) :=
  renderFramesAux 0 frames.length frames

/-- The `for await (const frame of frames)` loop shared by
`exportWithWebCodecs` and `exportWithMediaRecorder`: pulling frame number
`frameCount` first fires the producer's pending event, then, after the
frame is consumed, every 10th frame fires `(encoding, 0.5)` through the
exporter's own `onProgress` wrapper. -/
def encodeLoopEvents (wrap : ProgressEvent → ProgressEvent) :
    ℕ → List (ProgressEvent × FrameData) → List ProgressEvent
  | _, [] => []
  | frameCount, pf :: rest =>
    pf.1 :: ((if (frameCount + 1) % 10 = 0 then [wrap ⟨Phase.encoding, 1/2⟩] else [])
      ++ encodeLoopEvents wrap (frameCount + 1) rest)

/-- Events of `VideoExporter.exportWithWebCodecs` (success path). -/
def exportWithWebCodecsEvents (wrap : ProgressEvent → ProgressEvent)
    (producer : List (ProgressEvent × FrameData)) : List ProgressEvent :=
  wrap ⟨Phase.encoding, 0⟩
    :: (encodeLoopEvents wrap 0 producer ++ [wrap ⟨Phase.complete, 1⟩])

/-- Events of `VideoExporter.exportWithMediaRecorder` (success path);
identical event shape to the WebCodecs path. -/
def exportWithMediaRecorderEvents (wrap : ProgressEvent → ProgressEvent)
    (producer : List (ProgressEvent × FrameData)) : List ProgressEvent :=
  wrap ⟨Phase.encoding, 0⟩
    :: (encodeLoopEvents wrap 0 producer ++ [wrap ⟨Phase.complete, 1⟩])

/-- Events of `VideoExporter.exportVideo`: a `setup` event, then the chosen
backend.  `wrap` is the `onProgress` the manager hands to the exporter
(`0.8 + p*0.2`); the producer's events already carry the compositor's own
wrapper and pass through unchanged. -/
def exportVideoEvents (useWebCodecs : Bool) (wrap : ProgressEvent → ProgressEvent)
    (producer : List (ProgressEvent × FrameData)) : List ProgressEvent :=
  wrap ⟨Phase.setup, 0⟩
    :: (if useWebCodecs then exportWithWebCodecsEvents wrap producer
        else exportWithMediaRecorderEvents wrap producer)

/-- The metadata part of `MP4ExportResult` (the encoded blob itself is
outside the model). -/
structure MP4ExportResultMeta where
  duration : ℚ
  frameCount : ℤ
  options : ExportOptions
deriving DecidableEq

/-- `MP4ExportManager.exportAnimation`, reduced to its observable
progress-event sequence and result/error (success path of the encoder;
rasterization assumed to succeed).  Events are listed in the order the
single-threaded pipeline delivers them: the manager's `(encoding, 0.8)` is
emitted before the video exporter starts pulling the lazy frame stream, so
the compositor's `rendering` events fire afterwards, interleaved into the
encode loop. -/
def exportAnimationRun (sine : JNum → JNum) (isExporting useWebCodecs : Bool)
    (svgRoot : Elem) (animations : List Animation) (options : ExportOptions) :
    List ProgressEvent × Except String MP4ExportResultMeta :=
  if isExporting then ([], Except.error ("Export already in progress"))
  else
    let validationErrors := validateExportOptions options
    if validationErrors ≠ [] then
      ([], Except.error (("Invalid export options: ")
        ++ String.intercalate (", ") validationErrors))
    else
      let totalDuration := calculateTotalDuration animations
      let frameCount := getFrameCount totalDuration options.fps
      let frames := (generateFrames sine animations totalDuration options.fps svgRoot).1
      let renderWrap := remapProgress (1/5) (3/5)
      let encodeWrap := remapProgress (4/5) (1/5)
      let producer := (renderFramesEvents frames).map (fun x => (renderWrap x.1, x.2))
      let events :=
        ⟨Phase.setup, 0⟩ :: ⟨Phase.setup, 1/5⟩ :: ⟨Phase.encoding, 4/5⟩ ::
          (exportVideoEvents useWebCodecs encodeWrap producer
            ++ [⟨Phase.complete, 1⟩])
      (events, Except.ok ⟨totalDuration, frameCount, options⟩)

/-- Monotone non-decreasing check for a progress sequence (written from the
claim's wording, used to state the progress-monotonicity claim). -/
def isNonDecreasing : List ℚ → Bool
  | [] => true
  | [_] => true
  | a :: b :: rest => decide (a ≤ b) && isNonDecreasing (b :: rest)

/-- A `params` value as it is dynamically typed in the store
(`params: any`): a bare keyframe object or an array of keyframes. -/
inductive ParamValue where
  | single : Keyframe → ParamValue
  | list : List Keyframe → ParamValue
deriving DecidableEq

/-- An animation entry with dynamically-typed `params` values. -/
structure AnimationJS where
  targets : String
  params : List (String × ParamValue)
  position : ℚ
deriving DecidableEq

/-- `for (const step of paramSteps)`: iterating a bare (non-array) keyframe
object throws a TypeError, because a plain object is not iterable. -/
def iterateSteps : ParamValue → Except String (List Keyframe)
  | ParamValue.single _ => Except.error ("TypeError: paramSteps is not iterable")
  | ParamValue.list ks => Except.ok ks

/-- The intended reading of a dynamic params value as a keyframe sequence
(a bare keyframe as a one-element list). -/
def stepsOfParamValue : ParamValue → List Keyframe
  | ParamValue.single k => [k]
  | ParamValue.list ks => ks

/-- `calculateTotalDuration` on dynamically-typed entries: the `for...of`
over each params value can throw. -/
def calculateTotalDurationJS (animations : List AnimationJS) : Except String ℚ := do
  let maxTime ← animations.foldlM (fun m a =>
    a.params.foldlM (fun m2 p => do
      let steps ← iterateSteps p.2
      pure (m2.jsMax (animationEndOf a.position steps))) m) (JNum.val 0)
  pure (jsOrDefault maxTime 1000)

/-- `applyAnimationAtTime` on a dynamically-typed entry, including the
`targets.length === 0` early return (observable here: it skips the keyframe
iteration and hence the potential TypeError). -/
def applyAnimationAtTimeJS (sine : JNum → JNum) (a : AnimationJS) (timeMs : ℚ)
    (root : Elem) : Except String Elem :=
  let relativeTime := timeMs - a.position
  if relativeTime < 0 then Except.ok root
  else if a.targets ≠ ("svg") ∧ !(anyDescendant (matchesSelector a.targets) root) then
    Except.ok root
  else
    a.params.foldlM (fun r p => do
      let steps ← iterateSteps p.2
      match calculateParameterValueAtTime sine steps relativeTime with
      | none => pure r
      | some v => pure (applyToTargets r a.targets
          (fun e => applyParameterToElement e p.1 v))) root

mutual
/-- Whether an element and all its descendants carry none of the attributes
that `resetElementStates` strips (a "clean" subtree). -/
def elemClean : Elem → Bool
  | ⟨_, a, cs⟩ => a.all (fun p => !(resetAttributeNames.contains p.1)) && elemCleanList cs
/-- `elemClean` over a child list. -/
def elemCleanList : List Elem → Bool
  | [] => true
  | c :: cs => elemClean c && elemCleanList cs
end

/-- Whether every strict descendant of the root is clean (the root itself is
never touched by `resetElementStates`). -/
def childrenClean (root : Elem) : Bool := elemCleanList root.children

/-- Spec-side timing chain (spec section 3, "Derived timing invariant"):
`start(k) = end(previous) + delay(k)`, `end(k) = start(k) + duration(k)`,
with the chain starting at the entry's `position`. -/
def keyframeEnd (prevEnd : JNum) (k : Keyframe) : JNum :=
  (prevEnd.add (JNum.val (jsOrZero k.delay))).add (durationJ k.duration)

/-- Spec-side "end of the last keyframe" of a property's sequence (for an
empty sequence this degenerates to the bare `position`). -/
def specLastEnd (position : ℚ) (steps : List Keyframe) : JNum :=
  steps.foldl keyframeEnd (JNum.val position)

/-- Spec-side maximum of last-keyframe ends over all entries and properties
(starting from 0, as the code's `maxTime` does). -/
def maxSpecEnd (animations : List Animation) : JNum :=
  animations.foldl
    (fun m a => a.params.foldl (fun m2 p => m2.jsMax (specLastEnd a.position p.2)) m)
    (JNum.val 0)

/-- `d` if present else 1000 (helper for `withDurationDefault`). -/
def durationOrDefault : Option ℚ → ℚ
  | some d => d
  | none => 1000

/-- The claim-side reading of the duration default: replace every absent
keyframe `duration` by 1000 ms. -/
def withDurationDefault (animations : List Animation) : List Animation :=
  animations.map (fun a =>
    { a with params := a.params.map (fun p =>
        (p.1, p.2.map (fun k => { k with duration := some (durationOrDefault k.duration) }))) })

/-- The attribute name written by `applyParameterToElement` for a given
parameter key (the transform family all funnel into `transform`). -/
def touchedAttr (k : String) : String :=
  if k = ("opacity") then ("opacity")
  else if k = ("rotate") || k = ("translateX") || k = ("x") || k = ("translateY")
      || k = ("y") || k = ("scale") then ("transform")
  else if k = ("fill") then ("fill")
  else if k = ("stroke") then ("stroke")
  else if k = ("r") then ("r")
  else k

/-- Whether applying parameter `k` only writes attributes that the next
`resetElementStates` strips again. -/
def paramKeyCleared (k : String) : Bool :=
  resetAttributeNames.contains (touchedAttr k)

/-- The transform-family parameter keys, with the transform function name
and unit suffix each one writes. -/
def transformFamilyFunc (k : String) : Option (String × String) :=
  if k = ("rotate") then some (("rotate"), ("deg"))
  else if k = ("translateX") || k = ("x") then some (("translateX"), ("px"))
  else if k = ("translateY") || k = ("y") then some (("translateY"), ("px"))
  else if k = ("scale") then some (("scale"), (""))
  else none

/-- A nonempty all-word-character string (shape of a `(\w+)` capture). -/
def wordKey (s : String) : Bool := !s.data.isEmpty && s.data.all isWordChar

/-- A nonempty string without `)` (shape of a `([^)]+)` capture). -/
def goodVal (s : String) : Bool := !s.data.isEmpty && s.data.all (fun c => c != ')')

/-- The per-phase progress bands the export pipeline actually delivers
(see the C7 theorems). -/
def phaseBand (e : ProgressEvent) : Prop :=
  match e.phase with
  | Phase.setup => e.progress = 0 ∨ e.progress = 1/5 ∨ e.progress = 4/5
  | Phase.rendering => 1/5 ≤ e.progress ∧ e.progress < 4/5
  | Phase.encoding => 4/5 ≤ e.progress ∧ e.progress ≤ 1
  | Phase.complete => e.progress = 1
  | Phase.error => False

/-- The claim-side option bounds of spec section 4.6 / claim C8. -/
def optionsWithinBounds (o : ExportOptions) : Prop :=
  (0 < o.width ∧ o.width ≤ 4096) ∧ (0 < o.height ∧ o.height ≤ 4096)
    ∧ (0 < o.fps ∧ o.fps ≤ 120) ∧ (0 < o.duration ∧ o.duration ≤ 300000)
    ∧ (∀ q, o.quality = some q → 0 ≤ q ∧ q ≤ 1)
    ∧ o.format ∈ [("webm"), ("mp4")]

/-- A trivial instantiation of the abstracted easing primitive, used in
concrete witnesses (the theorems hold for every instantiation). -/
def sineId : JNum → JNum := fun x => x

/-- A root-targeting one-keyframe timeline: `opacity` on `targets: "svg"`,
50 ms delay, 100 ms duration. -/
def exAnimsRoot : List Animation :=
  [⟨("svg"), [(("opacity"), [⟨JSVal.num (JNum.val 1), some 100, some 50, none⟩])], 0⟩]

/-- A minimal loaded document: `<svg viewBox="0 0 24 24"></svg>`. -/
def exDocRoot : Elem := ⟨("svg"), [(("viewBox"), ("0 0 24 24"))], []⟩

/-- A document whose child carries an original `fill` attribute. -/
def exDocFill : Elem :=
  ⟨("svg"), [(("viewBox"), ("0 0 24 24"))], [⟨("rect"), [(("fill"), ("red"))], []⟩]⟩

/-- A nonempty timeline whose only keyframe has duration 0 (its last
keyframe ends at time 0). -/
def exAnimsZero : List Animation :=
  [⟨("rect"), [(("opacity"), [⟨JSVal.num (JNum.val 1), some 0, none, none⟩])], 0⟩]

/-- Two entries: one ending at 5000 ms, one whose keyframe has an absent
duration. -/
def exAnimsNaN : List Animation :=
  [⟨("a"), [(("opacity"), [⟨JSVal.num (JNum.val 1), some 5000, none, none⟩])], 0⟩,
   ⟨("b"), [(("opacity"), [⟨JSVal.num (JNum.val 1), none, none, none⟩])], 0⟩]

/-- Valid export options: 100x100, 10 fps, 1 s, webm. -/
def exOptsValid : ExportOptions := ⟨100, 100, 10, 1000, ("webm"), none⟩

/-- The options of the C8 validation-rejection scenario
(`{width: 0, fps: 30, durationMs: 1000, format: "mp4"}`). -/
def exOptsWidth0 : ExportOptions := ⟨0, 100, 30, 1000, ("mp4"), none⟩

/-- A dynamically-typed entry whose params value is a bare keyframe object
(not an array). -/
def exAnimSingle : AnimationJS :=
  ⟨("rect"), [(("opacity"), ParamValue.single ⟨JSVal.num (JNum.val 1), some 500, none, none⟩)], 0⟩

/-- A document containing a `rect`, so `targets: "rect"` resolves. -/
def exDocRect : Elem := ⟨("svg"), [], [⟨("rect"), [], []⟩]⟩

/-! Theorems.  First, general infrastructure about the tree model. -/

theorem mathCeil_eq (q : ℚ) : mathCeil q = ⌈q⌉ := by
  have h1 : ⌊-q⌋ = -⌈q⌉ := Int.floor_neg
  have h2 : ⌊-q⌋ = (-q).num / ((-q).den : ℤ) := Rat.floor_def
  unfold mathCeil
  omega

theorem sizeOf_child_lt (e : Elem) (c : Elem) (h : c ∈ e.children) :
    sizeOf c < sizeOf e := by
  cases e with
  | mk t a ch =>
    have hlt := List.sizeOf_lt_of_mem h
    simp only [Elem.mk.sizeOf_spec] at *
    omega

theorem elemInduct (P : Elem → Prop)
    (h : ∀ t a cs, (∀ c ∈ cs, P c) → P (Elem.mk t a cs)) : ∀ e, P e := by
  have key : ∀ n (e : Elem), sizeOf e ≤ n → P e := by
    intro n
    induction n with
    | zero =>
      intro e he
      cases e with
      | mk t a cs =>
        simp only [Elem.mk.sizeOf_spec] at he
        omega
    | succ n ih =>
      intro e he
      cases e with
      | mk t a cs =>
        apply h
        intro c hc
        apply ih
        have h1 := List.sizeOf_lt_of_mem hc
        simp only [Elem.mk.sizeOf_spec] at he
        omega
  intro e
  exact key (sizeOf e) e le_rfl

theorem resetDeepList_eq_map (cs : List Elem) : resetDeepList cs = cs.map resetDeep := by
  induction cs with
  | nil => simp [resetDeepList]
  | cons c cs ih => simp [resetDeepList, ih]

theorem stripResetAttrs_idem (l : List (String × String)) :
    stripResetAttrs (stripResetAttrs l) = stripResetAttrs l := by
  simp [stripResetAttrs, List.filter_filter]

theorem resetDeep_idem : ∀ e : Elem, resetDeep (resetDeep e) = resetDeep e := by
  refine elemInduct _ ?_
  intro t a cs ih
  simp only [resetDeep, resetDeepList_eq_map, List.map_map, stripResetAttrs_idem,
    Elem.mk.injEq, true_and]
  refine (List.map_congr_left ?_)
  intro c hc
  exact ih c hc

theorem resetElementStates_idem (root : Elem) :
    resetElementStates (resetElementStates root) = resetElementStates root := by
  cases root with
  | mk t a cs =>
    simp only [resetElementStates, resetDeepList_eq_map, List.map_map, Elem.mk.injEq,
      true_and]
    refine (List.map_congr_left ?_)
    intro c hc
    exact resetDeep_idem c

theorem elemCleanList_mem {cs : List Elem} (h : elemCleanList cs = true) :
    ∀ c ∈ cs, elemClean c = true := by
  induction cs with
  | nil => simp
  | cons c cs ih =>
    simp only [elemCleanList, Bool.and_eq_true] at h
    intro x hx
    rcases List.mem_cons.mp hx with rfl | hx2
    · exact h.1
    · exact ih h.2 x hx2

theorem elemClean_resetDeep : ∀ e : Elem, elemClean e = true → resetDeep e = e := by
  refine elemInduct _ ?_
  intro t a cs ih h
  simp only [elemClean, Bool.and_eq_true, List.all_eq_true] at h
  obtain ⟨h1, h2⟩ := h
  simp only [resetDeep, resetDeepList_eq_map, Elem.mk.injEq, true_and]
  constructor
  · exact List.filter_eq_self.mpr h1
  · refine (List.map_congr_left ?_).trans (List.map_id cs)
    intro c hc
    exact ih c hc (elemCleanList_mem h2 c hc)

/-- Claim C3 counterexample: on a freshly loaded document whose `rect` child
carries an original `fill="red"`, the per-seek reset strips that attribute,
so the serialized markup after a reset differs from the original load —
`reset` does not restore the originally-loaded markup state. -/
theorem C3_counterexample :
    serializeElem (resetElementStates exDocFill) ≠ serializeElem exDocFill := by
  decide

/-- Claim C3 (amended): `resetElementStates` removes the fixed list of
presentation attributes from every strict descendant of the root (the root
`svg` element is never touched).  It is idempotent — resetting twice equals
resetting once — and on a scene whose descendants carry none of those
attributes it is the identity, so only then does it preserve the serialized
markup of the original load.  It does not, in general, restore
originally-loaded markup (see the counterexample). -/
theorem C3_reset_amended (root : Elem) :
    resetElementStates (resetElementStates root) = resetElementStates root
    ∧ (childrenClean root = true → resetElementStates root = root) := by
  refine ⟨resetElementStates_idem root, ?_⟩
  intro h
  cases root with
  | mk t a cs =>
    simp only [childrenClean] at h
    simp only [resetElementStates, resetDeepList_eq_map, Elem.mk.injEq, true_and]
    refine (List.map_congr_left ?_).trans (List.map_id cs)
    intro c hc
    exact elemClean_resetDeep c (elemCleanList_mem h c hc)

/-- Witness for C3: the amended theorem applied to the concrete clean
document `<svg><rect></rect></svg>`. -/
theorem C3_witness :
    (resetElementStates (resetElementStates exDocRect) = resetElementStates exDocRect)
    ∧ resetElementStates exDocRect = exDocRect :=
  ⟨(C3_reset_amended exDocRect).1, (C3_reset_amended exDocRect).2 (by decide)⟩

/-- Claim C9 is a code bug: the repository's own agent interface declares
`params: Record<string, Keyframe[] | Keyframe>` ("a single Keyframe object"
is allowed) and the timeline UI supports single-keyframe properties, but
`calculateTotalDuration` and `calculateParameterValueAtTime` iterate the
params value with `for (const step of paramSteps)`, which throws a TypeError
on a bare (non-array) keyframe object.  This theorem evaluates the code at
the failing input: an entry whose `opacity` params value is a single
keyframe makes both the total-duration computation and the time-evaluation
path throw instead of treating it as a one-element sequence. -/
theorem C9_single_keyframe_throws :
    calculateTotalDurationJS [exAnimSingle]
      = Except.error ("TypeError: paramSteps is not iterable")
    ∧ applyAnimationAtTimeJS sineId exAnimSingle 0 exDocRect
      = Except.error ("TypeError: paramSteps is not iterable") := by
  constructor
  · with_unfolding_all rfl
  · with_unfolding_all rfl

theorem JNum.add_nan (x : JNum) : x.add JNum.nan = JNum.nan := by cases x <;> rfl

theorem JNum.nan_add (x : JNum) : JNum.nan.add x = JNum.nan := by cases x <;> rfl

theorem JNum.jsMax_nan (x : JNum) : x.jsMax JNum.nan = JNum.nan := by cases x <;> rfl

theorem JNum.nan_jsMax (x : JNum) : JNum.nan.jsMax x = JNum.nan := by cases x <;> rfl

theorem JNum.jsLe_nan (x : JNum) : x.jsLe JNum.nan = false := by cases x <;> rfl

theorem JNum.jsGt_nan (x : JNum) : x.jsGt JNum.nan = false := by cases x <;> rfl

/-- Claim C2: evaluating a keyframe sequence strictly before the start of
its first keyframe (`relativeTime < delay(k0)`, times here being relative to
the entry's `position` already) returns `null`, never a default or zero
value, and consequently `applyAnimationAtTime` leaves the document tree
untouched for an entry whose only property is such a sequence.  The
hypothesis `hd` is the data-model invariant that a present first duration is
nonnegative (a negative first duration could make the "past this step"
branch fire even before the step's start). -/
theorem C2_hold_before_start (sine : JNum → JNum) (k0 : Keyframe) (rest : List Keyframe)
    (t : ℚ) (ht : t < jsOrZero k0.delay)
    (hd : ∀ d, k0.duration = some d → 0 ≤ d) :
    calculateParameterValueAtTime sine (k0 :: rest) t = none
    ∧ ∀ (a : Animation) (timeMs : ℚ) (root : Elem) (key : String),
        a.params = [(key, k0 :: rest)] → timeMs - a.position = t →
        applyAnimationAtTime sine a timeMs root = root := by
  have hmain : calculateParameterValueAtTime sine (k0 :: rest) t = none := by
    unfold calculateParameterValueAtTime calculateParameterValueAtTimeAux
    have hge : (JNum.val t).jsGe ((JNum.val 0).add (JNum.val (jsOrZero k0.delay))) = false := by
      simp only [JNum.add, JNum.jsGe, decide_eq_false_iff_not]
      intro hcon
      linarith
    cases hk : k0.duration with
    | none =>
      simp only [hk, hge, durationJ, JNum.add_nan, JNum.jsGt_nan, Bool.false_and,
        Bool.false_eq_true, if_false]
    | some d =>
      have hd0 : 0 ≤ d := hd d hk
      have hgt : (JNum.val t).jsGt
          (((JNum.val 0).add (JNum.val (jsOrZero k0.delay))).add (durationJ (some d)))
          = false := by
        simp only [durationJ, JNum.add, JNum.jsGt, decide_eq_false_iff_not]
        intro hcon
        linarith
      simp only [hk, hge, hgt, Bool.false_and, Bool.false_eq_true, if_false]
  refine ⟨hmain, ?_⟩
  intro a timeMs root key hp hrel
  unfold applyAnimationAtTime
  rw [hp, hrel]
  by_cases hneg : t < 0
  · simp [hneg]
  · simp [hneg, hmain]

/-- Witness for C2: the concrete sequence `[{to: 1, duration: 100, delay: 50}]`
evaluated at relative time 20 (before the 50 ms start) yields `null` and
leaves the document untouched. -/
theorem C2_witness :
    calculateParameterValueAtTime sineId
      [⟨JSVal.num (JNum.val 1), some 100, some 50, none⟩] 20 = none
    ∧ applyAnimationAtTime sineId
      ⟨("svg"), [(("opacity"), [⟨JSVal.num (JNum.val 1), some 100, some 50, none⟩])], 0⟩
      20 exDocRoot = exDocRoot := by
  have h := C2_hold_before_start sineId
    ⟨JSVal.num (JNum.val 1), some 100, some 50, none⟩ [] 20
    (by norm_num [jsOrZero]) (by intro d hdq; simp at hdq; linarith)
  exact ⟨h.1, h.2 _ 20 exDocRoot ("opacity") rfl (by norm_num)⟩

theorem foldl_addStep_nan (l : List Keyframe) :
    l.foldl (fun acc step =>
      acc.add ((JNum.val (jsOrZero step.delay)).add (durationJ step.duration)))
      JNum.nan = JNum.nan := by
  induction l with
  | nil => rfl
  | cons s l ih =>
    simp only [List.foldl_cons, JNum.nan_add]
    exact ih

theorem animationEndOf_nan (pos : ℚ) (steps : List Keyframe) (k : Keyframe)
    (hk : k ∈ steps) (hkd : k.duration = none) :
    animationEndOf pos steps = JNum.nan := by
  obtain ⟨s1, s2, rfl⟩ := List.append_of_mem hk
  unfold animationEndOf
  rw [List.foldl_append]
  simp only [List.foldl_cons, hkd, durationJ, JNum.add_nan]
  exact foldl_addStep_nan s2

theorem foldl_jsMax_nan_acc {α : Type} (g : α → JNum) (l : List α) :
    l.foldl (fun m x => m.jsMax (g x)) JNum.nan = JNum.nan := by
  induction l with
  | nil => rfl
  | cons x l ih =>
    simp only [List.foldl_cons, JNum.nan_jsMax]
    exact ih

theorem foldl_jsMax_nan_mem {α : Type} (g : α → JNum) (l : List α) (acc : JNum) (x : α)
    (hx : x ∈ l) (hg : g x = JNum.nan) :
    l.foldl (fun m y => m.jsMax (g y)) acc = JNum.nan := by
  obtain ⟨s1, s2, rfl⟩ := List.append_of_mem hx
  rw [List.foldl_append]
  simp only [List.foldl_cons, hg, JNum.jsMax_nan]
  exact foldl_jsMax_nan_acc g s2

theorem foldl_outer_nan (l : List Animation) :
    l.foldl (fun m a =>
      a.params.foldl (fun m2 p => m2.jsMax (animationEndOf a.position p.2)) m)
      JNum.nan = JNum.nan := by
  induction l with
  | nil => rfl
  | cons b l ih =>
    simp only [List.foldl_cons]
    rw [foldl_jsMax_nan_acc (fun p => animationEndOf b.position p.2) b.params]
    exact ih

theorem maxTimeOf_nan (animations : List Animation) (a : Animation) (p : String × List Keyframe)
    (ha : a ∈ animations) (hp : p ∈ a.params)
    (hend : animationEndOf a.position p.2 = JNum.nan) :
    maxTimeOf animations = JNum.nan := by
  obtain ⟨s1, s2, rfl⟩ := List.append_of_mem ha
  unfold maxTimeOf
  rw [List.foldl_append]
  simp only [List.foldl_cons]
  rw [foldl_jsMax_nan_mem (fun p => animationEndOf a.position p.2) a.params _ p hp hend]
  exact foldl_outer_nan s2

/-- Claim C5 (amended): there is no per-keyframe 1000 ms default for an
absent `duration` in the renderer.  Instead, an absent duration makes the
keyframe arithmetic NaN: the whole timeline's `maxTime` collapses to NaN, so
`calculateTotalDuration` falls back to its empty-timeline default of 1000 ms
regardless of every other entry; and evaluating a sequence whose (first)
keyframe has no duration never enters or passes that segment, returning the
previous value (`null` for a single-keyframe sequence) at every time. -/
theorem C5_absent_duration_amended :
    (∀ animations : List Animation,
      (∃ a ∈ animations, ∃ p ∈ a.params, ∃ k ∈ p.2, k.duration = none) →
      calculateTotalDuration animations = 1000)
    ∧ (∀ (sine : JNum → JNum) (k : Keyframe) (t : ℚ), k.duration = none →
      calculateParameterValueAtTime sine [k] t = none) := by
  constructor
  · intro animations h
    obtain ⟨a, ha, p, hp, k, hk, hkd⟩ := h
    unfold calculateTotalDuration
    rw [maxTimeOf_nan animations a p ha hp (animationEndOf_nan a.position p.2 k hk hkd)]
    rfl
  · intro sine k t hkd
    unfold calculateParameterValueAtTime calculateParameterValueAtTimeAux
    rw [hkd]
    simp only [durationJ, JNum.add_nan, JNum.jsLe_nan, JNum.jsGt_nan, Bool.and_false]
    simp

/-- Claim C5 counterexample: under the claim's reading (absent duration
treated as a 1000 ms default) the two-entry timeline
`[end-at-5000, absent-duration]` would have total duration 5000; the code
computes 1000, because the absent duration poisons `maxTime` with NaN and
`maxTime || 1000` yields the 1000 fallback instead of the other entry's
5000. -/
theorem C5_counterexample :
    calculateTotalDuration exAnimsNaN = 1000
    ∧ calculateTotalDuration (withDurationDefault exAnimsNaN) = 5000
    ∧ calculateTotalDuration exAnimsNaN
      ≠ calculateTotalDuration (withDurationDefault exAnimsNaN) := by
  refine ⟨?_, ?_, ?_⟩ <;> decide

/-- Witness for C5: the amended theorem applied to the concrete timeline
with an absent duration and to a concrete single keyframe. -/
theorem C5_witness :
    calculateTotalDuration exAnimsNaN = 1000
    ∧ calculateParameterValueAtTime sineId
        [⟨JSVal.num (JNum.val 1), none, none, none⟩] 123 = none := by
  constructor
  · exact C5_absent_duration_amended.1 exAnimsNaN (by decide)
  · exact C5_absent_duration_amended.2 sineId _ 123 rfl

theorem JNum.add_assoc (a b c : JNum) : (a.add b).add c = a.add (b.add c) := by
  cases a <;> cases b <;> cases c <;> (simp [JNum.add]; try ring)

theorem animationEndOf_eq_specLastEnd (pos : ℚ) (steps : List Keyframe) :
    animationEndOf pos steps = specLastEnd pos steps := by
  unfold animationEndOf specLastEnd keyframeEnd
  simp only [JNum.add_assoc]

theorem maxTimeOf_eq_maxSpecEnd (animations : List Animation) :
    maxTimeOf animations = maxSpecEnd animations := by
  unfold maxTimeOf maxSpecEnd
  simp only [animationEndOf_eq_specLastEnd]

theorem foldl_preserve {α : Type} (P : JNum → Prop) (f : JNum → α → JNum)
    (hf : ∀ m x, P m → P (f m x)) :
    ∀ (l : List α) (acc : JNum), P acc → P (l.foldl f acc) := by
  intro l
  induction l with
  | nil => intro acc h; exact h
  | cons x l ih =>
    intro acc h
    exact ih (f acc x) (hf acc x h)

/-- The invariant maintained by the `maxTime` folds: NaN or a nonnegative
value. -/
def NanOrNonneg (m : JNum) : Prop :=
  m = JNum.nan ∨ ∃ q, m = JNum.val q ∧ 0 ≤ q

theorem jsMax_preserve (m y : JNum) (h : NanOrNonneg m) : NanOrNonneg (m.jsMax y) := by
  rcases h with h | ⟨q, rfl, hq⟩
  · subst h
    left
    exact JNum.nan_jsMax y
  · cases y with
    | nan => left; exact JNum.jsMax_nan _
    | val b =>
      right
      refine ⟨if q ≤ b then b else q, rfl, ?_⟩
      by_cases hqb : q ≤ b
      · simp [hqb]; linarith
      · simp [hqb, hq]

theorem maxTimeOf_nanOrNonneg (animations : List Animation) :
    NanOrNonneg (maxTimeOf animations) := by
  unfold maxTimeOf
  refine foldl_preserve NanOrNonneg _ ?_ animations (JNum.val 0) ?_
  · intro m a hm
    exact foldl_preserve NanOrNonneg _ (fun m2 p => jsMax_preserve m2 _) a.params m hm
  · exact Or.inr ⟨0, rfl, le_refl 0⟩

theorem calculateTotalDuration_pos (animations : List Animation) :
    0 < calculateTotalDuration animations := by
  unfold calculateTotalDuration
  rcases maxTimeOf_nanOrNonneg animations with h | ⟨q, h, hq⟩
  · rw [h]
    norm_num [jsOrDefault]
  · rw [h]
    simp only [jsOrDefault]
    by_cases hq0 : q = 0
    · rw [if_pos hq0]
      norm_num
    · rw [if_neg hq0]
      exact lt_of_le_of_ne hq (Ne.symm hq0)

theorem getFrameCount_pos (D fps : ℚ) (hD : 0 < D) (hfps : 0 < fps) :
    0 < getFrameCount D fps := by
  unfold getFrameCount
  rw [mathCeil_eq]
  exact Int.ceil_pos.mpr (div_pos hD (div_pos (by norm_num) hfps))

theorem generateFramesAux_frameNumbers (sine : JNum → JNum) (animations : List Animation)
    (interval : ℚ) :
    ∀ (idxs : List ℕ) (doc : Elem),
      (generateFramesAux sine animations interval idxs doc).1.map (fun f => f.frameNumber)
        = idxs := by
  intro idxs
  induction idxs with
  | nil => intro doc; rfl
  | cons i idxs ih =>
    intro doc
    simp [generateFramesAux, ih]

theorem generateFramesAux_timestamps (sine : JNum → JNum) (animations : List Animation)
    (interval : ℚ) :
    ∀ (idxs : List ℕ) (doc : Elem),
      (generateFramesAux sine animations interval idxs doc).1.map (fun f => f.timestamp)
        = idxs.map (fun n => (n : ℚ) * interval) := by
  intro idxs
  induction idxs with
  | nil => intro doc; rfl
  | cons i idxs ih =>
    intro doc
    simp [generateFramesAux, ih]

theorem generateFramesAux_length (sine : JNum → JNum) (animations : List Animation)
    (interval : ℚ) (idxs : List ℕ) (doc : Elem) :
    (generateFramesAux sine animations interval idxs doc).1.length = idxs.length := by
  have h := generateFramesAux_frameNumbers sine animations interval idxs doc
  have := congrArg List.length h
  simpa using this

theorem frameIndexList_of_pos (N : ℤ) (h : 0 < N) :
    frameIndexList N = List.range (N.toNat + 1) := by
  unfold frameIndexList
  rw [if_neg (by omega)]

/-- Claim C10: for every timeline and positive fps, the `frameCount`
reported in the export result (`getFrameCount`, i.e.
`ceil(totalDuration/(1000/fps))`) is exactly one less than the number of
frames the generator actually yields (the loop runs `frame = 0 ..
totalFrames` inclusive). -/
theorem C10_frameCount_off_by_one (sine : JNum → JNum) (animations : List Animation)
    (doc : Elem) (fps : ℚ) (hfps : 0 < fps) :
    ((generateFrames sine animations (calculateTotalDuration animations) fps doc).1.length : ℤ)
      = getFrameCount (calculateTotalDuration animations) fps + 1 := by
  have hD := calculateTotalDuration_pos animations
  have hN := getFrameCount_pos (calculateTotalDuration animations) fps hD hfps
  unfold generateFrames
  rw [generateFramesAux_length]
  have : mathCeil (calculateTotalDuration animations / (1000 / fps))
      = getFrameCount (calculateTotalDuration animations) fps := rfl
  rw [this, frameIndexList_of_pos _ hN, List.length_range]
  omega

/-- Witness for C10: the empty timeline (total duration 1000) at 10 fps
yields 11 frames while `getFrameCount` reports 10. -/
theorem C10_witness :
    ((generateFrames sineId [] (calculateTotalDuration []) 10 exDocRoot).1.length : ℤ)
      = getFrameCount (calculateTotalDuration []) 10 + 1 :=
  C10_frameCount_off_by_one sineId [] exDocRoot 10 (by norm_num)

/-- Claim C4 (amended): for a positive fps the generator yields exactly one
frame per index `f` in `[0, frameCount]` with `frameCount =
ceil(totalDurationMs/(1000/fps))`, each with timestamp `f * (1000/fps)` —
but the total duration is not simply "the maximum over entries and
properties of the last keyframe's end, defaulting to 1000 when empty": the
code computes `maxTime || 1000`, i.e. the default 1000 also fires for a
nonempty timeline whose maximum end is 0 (or NaN via an absent duration),
and a property with an empty keyframe list still contributes the bare
`position` to the maximum. -/
theorem C4_frames_amended (sine : JNum → JNum) (animations : List Animation)
    (doc : Elem) (fps : ℚ) (hfps : 0 < fps) :
    calculateTotalDuration animations = jsOrDefault (maxSpecEnd animations) 1000
    ∧ ((generateFrames sine animations (calculateTotalDuration animations) fps doc).1.map
        (fun f => f.frameNumber)
        = List.range ((getFrameCount (calculateTotalDuration animations) fps).toNat + 1))
    ∧ ((generateFrames sine animations (calculateTotalDuration animations) fps doc).1.map
        (fun f => f.timestamp)
        = (List.range ((getFrameCount (calculateTotalDuration animations) fps).toNat + 1)).map
            (fun n => (n : ℚ) * (1000 / fps))) := by
  have hD := calculateTotalDuration_pos animations
  have hN := getFrameCount_pos (calculateTotalDuration animations) fps hD hfps
  refine ⟨?_, ?_, ?_⟩
  · unfold calculateTotalDuration
    rw [maxTimeOf_eq_maxSpecEnd]
  · unfold generateFrames
    rw [generateFramesAux_frameNumbers]
    have hceil : mathCeil (calculateTotalDuration animations / (1000 / fps))
        = getFrameCount (calculateTotalDuration animations) fps := rfl
    rw [hceil, frameIndexList_of_pos _ hN]
  · unfold generateFrames
    rw [generateFramesAux_timestamps]
    have hceil : mathCeil (calculateTotalDuration animations / (1000 / fps))
        = getFrameCount (calculateTotalDuration animations) fps := rfl
    rw [hceil, frameIndexList_of_pos _ hN]

/-- Claim C4 counterexample: the nonempty timeline whose single keyframe has
duration 0 has last-keyframe-end maximum 0, so under the claim the total
duration would be 0 (the 1000 default being reserved for an empty timeline)
and a single frame would be produced at 10 fps; the code's `maxTime || 1000`
yields 1000 and 11 frames. -/
theorem C4_counterexample :
    maxSpecEnd exAnimsZero = JNum.val 0
    ∧ calculateTotalDuration exAnimsZero ≠ 0
    ∧ (generateFrames sineId exAnimsZero (calculateTotalDuration exAnimsZero)
        10 exDocRect).1.length = 11 := by
  refine ⟨by decide, by decide, by decide⟩

/-- Witness for C4: the amended theorem at the concrete root-targeting
timeline, 10 fps. -/
theorem C4_witness :
    calculateTotalDuration exAnimsRoot = jsOrDefault (maxSpecEnd exAnimsRoot) 1000
    ∧ ((generateFrames sineId exAnimsRoot (calculateTotalDuration exAnimsRoot) 10
        exDocRoot).1.map (fun f => f.frameNumber)
        = List.range ((getFrameCount (calculateTotalDuration exAnimsRoot) 10).toNat + 1))
    ∧ ((generateFrames sineId exAnimsRoot (calculateTotalDuration exAnimsRoot) 10
        exDocRoot).1.map (fun f => f.timestamp)
        = (List.range ((getFrameCount (calculateTotalDuration exAnimsRoot) 10).toNat + 1)).map
            (fun n => (n : ℚ) * (1000 / 10))) :=
  C4_frames_amended sineId exAnimsRoot exDocRoot 10 (by norm_num)

theorem if_msg_eq_nil (c : Prop) [Decidable c] (m : String) :
    ((if c then [m] else []) = []) ↔ ¬c := by
  split_ifs with hc
  · simp [hc]
  · simp [hc]

/-- Claim C8: `validateExportOptions` accepts exactly the options within the
claimed bounds; on any violation, `exportAnimation` fails before doing any
work — no progress event at all is delivered (in particular none with the
`rendering` phase) — with one aggregated error whose message concatenates
every violation; and `width <= 0` in particular contributes the message
citing width. -/
theorem C8_validation (options : ExportOptions) :
    (validateExportOptions options = [] ↔ optionsWithinBounds options)
    ∧ (validateExportOptions options ≠ [] →
        ∀ (sine : JNum → JNum) (useWebCodecs : Bool) (doc : Elem)
          (animations : List Animation),
          exportAnimationRun sine false useWebCodecs doc animations options
            = ([], Except.error (("Invalid export options: ")
                ++ String.intercalate (", ") (validateExportOptions options))))
    ∧ (options.width ≤ 0 → ("Width must be between 1 and 4096 pixels") ∈ validateExportOptions options) := by
  refine ⟨?_, ?_, ?_⟩
  · unfold validateExportOptions optionsWithinBounds
    cases hq : options.quality with
    | none =>
      simp only [hq, List.append_eq_nil, if_msg_eq_nil, Bool.not_eq_true,
        Bool.not_eq_true', Bool.not_eq_false', List.contains_eq_any_beq,
        List.any_cons, List.any_nil, Bool.or_false, Bool.or_eq_true, beq_iff_eq,
        List.mem_cons, List.not_mem_nil, or_false]
      push_neg
      simp only [ne_eq, Bool.ne_false_iff, Bool.or_eq_true, beq_iff_eq]
      tauto
    | some q =>
      simp only [hq, List.append_eq_nil, if_msg_eq_nil, Bool.not_eq_true,
        Bool.not_eq_true', Bool.not_eq_false', List.contains_eq_any_beq,
        List.any_cons, List.any_nil, Bool.or_false, Bool.or_eq_true, beq_iff_eq,
        List.mem_cons, List.not_mem_nil, or_false, Option.some.injEq]
      push_neg
      simp only [ne_eq, Bool.ne_false_iff, Bool.or_eq_true, beq_iff_eq]
      constructor
      · intro h
        refine ⟨h.1.1.1.1.1, h.1.1.1.1.2, h.1.1.1.2, h.1.1.2, ?_, h.2⟩
        intro q2 hq2
        subst hq2
        exact h.1.2
      · intro h
        exact ⟨⟨⟨⟨⟨h.1, h.2.1⟩, h.2.2.1⟩, h.2.2.2.1⟩, h.2.2.2.2.1 q rfl⟩, h.2.2.2.2.2⟩
  · intro hne sine useWebCodecs doc animations
    simp only [exportAnimationRun, Bool.false_eq_true, if_false]
    rw [if_pos hne]
  · intro hw
    unfold validateExportOptions
    rw [if_pos (Or.inl hw)]
    simp

/-- Witness for C8: the options `{width: 0, height: 100, fps: 30,
duration: 1000, format: "mp4"}` are rejected with no progress events (hence
no `rendering` phase) and an aggregated message, and the width message is
among the violations. -/
theorem C8_witness :
    exportAnimationRun sineId false true exDocRect [] exOptsWidth0
      = ([], Except.error (("Invalid export options: ")
          ++ String.intercalate (", ") (validateExportOptions exOptsWidth0)))
    ∧ ("Width must be between 1 and 4096 pixels") ∈ validateExportOptions exOptsWidth0 :=
  ⟨(C8_validation exOptsWidth0).2.1 (by decide) sineId true exDocRect [],
   (C8_validation exOptsWidth0).2.2 (by norm_num [exOptsWidth0])⟩

theorem renderFramesAux_mem (i n : ℕ) (fs : List FrameData)
    (hlen : i + fs.length ≤ n) :
    ∀ pf ∈ renderFramesAux i n fs,
      pf.1.phase = Phase.rendering ∧ 0 ≤ pf.1.progress ∧ pf.1.progress < 1 := by
  induction fs generalizing i with
  | nil =>
    intro pf hpf
    simp [renderFramesAux] at hpf
  | cons f fs ih =>
    intro pf hpf
    simp only [List.length_cons] at hlen
    rcases List.mem_cons.mp hpf with rfl | hpf2
    · have hin : i < n := by omega
      have hn : 0 < n := by omega
      refine ⟨rfl, ?_, ?_⟩
      · exact div_nonneg (by positivity) (by positivity)
      · rw [div_lt_one (by exact_mod_cast hn)]
        exact_mod_cast hin
    · exact ih (i + 1) (by omega) pf hpf2

theorem encodeLoopEvents_mem (wrap : ProgressEvent → ProgressEvent) :
    ∀ (cnt : ℕ) (producer : List (ProgressEvent × FrameData)) (e : ProgressEvent),
      e ∈ encodeLoopEvents wrap cnt producer →
      (∃ pf ∈ producer, e = pf.1) ∨ e = wrap ⟨Phase.encoding, 1/2⟩ := by
  intro cnt producer
  induction producer generalizing cnt with
  | nil =>
    intro e he
    simp [encodeLoopEvents] at he
  | cons pf producer ih =>
    intro e he
    simp only [encodeLoopEvents, List.mem_cons, List.mem_append] at he
    rcases he with rfl | he2
    · exact Or.inl ⟨pf, List.mem_cons_self pf producer, rfl⟩
    · rcases he2 with hten | hrest
      · right
        by_cases h10 : (cnt + 1) % 10 = 0
        · rw [if_pos h10] at hten
          simpa using hten
        · rw [if_neg h10] at hten
          simp at hten
      · rcases ih (cnt + 1) e hrest with ⟨pf2, hpf2, rfl⟩ | h
        · exact Or.inl ⟨pf2, List.mem_cons_of_mem pf hpf2, rfl⟩
        · exact Or.inr h

theorem exportVideoEvents_band (useWebCodecs : Bool)
    (producer : List (ProgressEvent × FrameData))
    (hprod : ∀ pf ∈ producer, phaseBand pf.1) :
    ∀ e ∈ exportVideoEvents useWebCodecs (remapProgress (4/5) (1/5)) producer,
      phaseBand e := by
  intro e he
  unfold exportVideoEvents exportWithWebCodecsEvents exportWithMediaRecorderEvents at he
  have hcore : e ∈ (remapProgress (4/5) (1/5) ⟨Phase.setup, 0⟩) ::
      (remapProgress (4/5) (1/5) ⟨Phase.encoding, 0⟩) ::
      (encodeLoopEvents (remapProgress (4/5) (1/5)) 0 producer
        ++ [remapProgress (4/5) (1/5) ⟨Phase.complete, 1⟩]) := by
    cases useWebCodecs <;> simpa using he
  rcases List.mem_cons.mp hcore with rfl | h2
  · simp [phaseBand, remapProgress]
  rcases List.mem_cons.mp h2 with rfl | h3
  · simp only [phaseBand, remapProgress]
    norm_num
  rcases List.mem_append.mp h3 with h4 | h5
  · rcases encodeLoopEvents_mem _ 0 producer e h4 with ⟨pf, hpf, rfl⟩ | rfl
    · exact hprod pf hpf
    · simp only [phaseBand, remapProgress]
      norm_num
  · have : e = remapProgress (4/5) (1/5) ⟨Phase.complete, 1⟩ := by simpa using h5
    subst this
    simp only [phaseBand, remapProgress]
    norm_num

/-- Claim C7 (amended): every progress event the export pipeline delivers
sits in its phase's band — `rendering` in `[0.2, 0.8)`, `encoding` in
`[0.8, 1]` (concretely 0.8 and 0.9), `complete` exactly 1, `setup` at one of
0, 0.2 or 0.8 (the encoder-initialization `setup` event passes through the
`0.8 + p*0.2` wrapper) — and the final event of a successful export is
`(complete, 1)`.  The sequence is NOT monotonically non-decreasing (see the
counterexample): the orchestrator emits `(encoding, 0.8)` before it starts
pulling the lazy frame stream, so all `rendering` events (at 0.2–0.8) arrive
after it. -/
theorem C7_progress_bands (sine : JNum → JNum) (isExporting useWebCodecs : Bool)
    (doc : Elem) (animations : List Animation) (options : ExportOptions) :
    (∀ e ∈ (exportAnimationRun sine isExporting useWebCodecs doc animations options).1,
      phaseBand e)
    ∧ ((exportAnimationRun sine isExporting useWebCodecs doc animations options).1 = []
       ∨ ((exportAnimationRun sine isExporting useWebCodecs doc animations options).1).getLast?
          = some ⟨Phase.complete, 1⟩) := by
  unfold exportAnimationRun
  cases isExporting with
  | true => simp
  | false =>
    simp only [Bool.false_eq_true, if_false]
    by_cases hv : validateExportOptions options ≠ []
    · rw [if_pos hv]
      simp
    · rw [if_neg hv]
      have hprod : ∀ pf ∈ (renderFramesEvents
          (generateFrames sine animations (calculateTotalDuration animations)
            options.fps doc).1).map
          (fun x => (remapProgress (1/5) (3/5) x.1, x.2)), phaseBand pf.1 := by
        intro pf hpf
        rcases List.mem_map.mp hpf with ⟨x, hx, rfl⟩
        have hb := renderFramesAux_mem 0 _ _ (by omega) x hx
        rcases hb with ⟨hph, h0, h1⟩
        simp only [phaseBand, remapProgress, hph]
        constructor
        · linarith
        · linarith
      constructor
      · intro e he
        rcases List.mem_cons.mp he with rfl | h2
        · simp [phaseBand]
        rcases List.mem_cons.mp h2 with rfl | h3
        · simp [phaseBand]
        rcases List.mem_cons.mp h3 with rfl | h4
        · simp only [phaseBand]
          norm_num
        rcases List.mem_append.mp h4 with h5 | h6
        · exact exportVideoEvents_band useWebCodecs _ hprod e h5
        · have : e = ⟨Phase.complete, 1⟩ := by simpa using h6
          subst this
          simp [phaseBand]
      · right
        rw [show (⟨Phase.setup, 0⟩ : ProgressEvent) :: ⟨Phase.setup, 1/5⟩ ::
            ⟨Phase.encoding, 4/5⟩ ::
            (exportVideoEvents useWebCodecs (remapProgress (4/5) (1/5))
              ((renderFramesEvents (generateFrames sine animations
                (calculateTotalDuration animations) options.fps doc).1).map
                (fun x => (remapProgress (1/5) (3/5) x.1, x.2)))
              ++ [⟨Phase.complete, 1⟩])
          = (⟨Phase.setup, 0⟩ :: ⟨Phase.setup, 1/5⟩ :: ⟨Phase.encoding, 4/5⟩ ::
              exportVideoEvents useWebCodecs (remapProgress (4/5) (1/5))
              ((renderFramesEvents (generateFrames sine animations
                (calculateTotalDuration animations) options.fps doc).1).map
                (fun x => (remapProgress (1/5) (3/5) x.1, x.2))))
              ++ [⟨Phase.complete, 1⟩] from by simp]
        exact List.getLast?_concat _

/-- Claim C7 counterexample: for a concrete valid export (empty timeline,
100x100, 10 fps, 1 s, webm, WebCodecs backend) the delivered progress
sequence is 0, 0.2, 0.8, 0.8, 0.8, 0.2, ... — the orchestrator's
`(encoding, 0.8)` precedes the lazily-driven `rendering` events at 0.2+,
so the sequence of progress values is not monotonically non-decreasing. -/
theorem C7_counterexample :
    isNonDecreasing ((exportAnimationRun sineId false true exDocRoot [] exOptsValid).1.map
      (fun e => e.progress)) = false := by
  decide

theorem applyParameterToElement_setAttr (e : Elem) (k : String) (v : JSVal) :
    ∃ w, applyParameterToElement e k v = e.setAttribute (touchedAttr k) w := by
  unfold applyParameterToElement touchedAttr applyTransform
  split_ifs <;> first | exact ⟨_, rfl⟩ | simp_all

theorem stripResetAttrs_mapUpdate (l : List (String × String)) (k w : String)
    (hk : resetAttributeNames.contains k = true) :
    stripResetAttrs (l.map (fun p => if p.1 = k then (k, w) else p))
      = stripResetAttrs l := by
  have hk2 : k ∈ resetAttributeNames := by simpa using hk
  induction l with
  | nil => rfl
  | cons p l ih =>
    simp only [List.map_cons]
    unfold stripResetAttrs
    simp only [List.filter_cons]
    by_cases hp : p.1 = k
    · rw [if_pos hp]
      have h1 : (!(resetAttributeNames.contains (k, w).1)) = false := by
        simp [hk2]
      have h2 : (!(resetAttributeNames.contains p.1)) = false := by
        simp [hp, hk2]
      rw [h1, h2]
      exact ih
    · rw [if_neg hp]
      unfold stripResetAttrs at ih
      by_cases hmem : (!(resetAttributeNames.contains p.1)) = true
      · rw [if_pos hmem, if_pos hmem, ih]
      · rw [if_neg hmem, if_neg hmem]
        exact ih

theorem stripResetAttrs_append_cleared (l : List (String × String)) (k w : String)
    (hk : resetAttributeNames.contains k = true) :
    stripResetAttrs (l ++ [(k, w)]) = stripResetAttrs l := by
  unfold stripResetAttrs
  rw [List.filter_append]
  have hk2 : k ∈ resetAttributeNames := by simpa using hk
  have : List.filter (fun p => !(resetAttributeNames.contains p.1)) [(k, w)] = [] := by
    simp [hk2]
  rw [this, List.append_nil]

theorem stripResetAttrs_setKey (l : List (String × String)) (k w : String)
    (hk : resetAttributeNames.contains k = true) :
    stripResetAttrs (setKey l k w) = stripResetAttrs l := by
  unfold setKey
  split_ifs with hfind
  · exact stripResetAttrs_mapUpdate l k w hk
  · exact stripResetAttrs_append_cleared l k w hk

theorem resetDeep_setAttribute (e : Elem) (k w : String)
    (hk : resetAttributeNames.contains k = true) :
    resetDeep (e.setAttribute k w) = resetDeep e := by
  cases e with
  | mk t a cs =>
    simp only [Elem.setAttribute, resetDeep]
    rw [stripResetAttrs_setKey a k w hk]

theorem applyWhereDeepList_eq_map (p : Elem → Bool) (f : Elem → Elem) (cs : List Elem) :
    applyWhereDeepList p f cs = cs.map (applyWhereDeep p f) := by
  induction cs with
  | nil => rfl
  | cons c cs ih => simp [applyWhereDeepList, ih]

theorem resetDeep_applyWhereDeep (p : Elem → Bool) (k : String) (v : JSVal)
    (hck : paramKeyCleared k = true) :
    ∀ e, resetDeep (applyWhereDeep p (fun x => applyParameterToElement x k v) e)
      = resetDeep e := by
  refine elemInduct _ ?_
  intro t a cs ih
  have hlist : resetDeepList (applyWhereDeepList p
      (fun x => applyParameterToElement x k v) cs) = resetDeepList cs := by
    rw [resetDeepList_eq_map, resetDeepList_eq_map, applyWhereDeepList_eq_map,
      List.map_map]
    exact List.map_congr_left (fun c hc => ih c hc)
  simp only [applyWhereDeep]
  by_cases hp : p ⟨t, a, cs⟩ = true
  · rw [if_pos hp]
    obtain ⟨w, hw⟩ := applyParameterToElement_setAttr ⟨t, a, cs⟩ k v
    rw [hw]
    simp only [Elem.setAttribute, resetDeep]
    rw [stripResetAttrs_setKey a _ w hck, hlist]
  · rw [if_neg hp]
    simp only [resetDeep]
    rw [hlist]

theorem reset_applyToTargets (root : Elem) (sel : String) (k : String) (v : JSVal)
    (hsel : sel ≠ ("svg")) (hck : paramKeyCleared k = true) :
    resetElementStates (applyToTargets root sel (fun x => applyParameterToElement x k v))
      = resetElementStates root := by
  unfold applyToTargets
  rw [if_neg hsel]
  cases root with
  | mk t a cs =>
    simp only [resetElementStates]
    rw [resetDeepList_eq_map, resetDeepList_eq_map, applyWhereDeepList_eq_map,
      List.map_map]
    have hmap := List.map_congr_left
      (fun c (hc : c ∈ cs) => resetDeep_applyWhereDeep (matchesSelector sel) k v hck c)
    simp only [Elem.mk.injEq, true_and]
    simpa [Function.comp_def] using hmap

theorem reset_paramFold (sine : JNum → JNum) (targets : String) (relTime : ℚ)
    (hsel : targets ≠ ("svg")) :
    ∀ (ps : List (String × List Keyframe)) (r : Elem),
      (∀ pp ∈ ps, paramKeyCleared pp.1 = true) →
      resetElementStates (ps.foldl (fun r p =>
        match calculateParameterValueAtTime sine p.2 relTime with
        | none => r
        | some v => applyToTargets r targets
            (fun e => applyParameterToElement e p.1 v)) r)
      = resetElementStates r := by
  intro ps
  induction ps with
  | nil => intro r _; rfl
  | cons p ps ih =>
    intro r h
    simp only [List.foldl_cons]
    rw [ih _ (fun pp hpp => h pp (List.mem_cons_of_mem p hpp))]
    cases hcv : calculateParameterValueAtTime sine p.2 relTime with
    | none => rfl
    | some v =>
      exact reset_applyToTargets r targets p.1 v hsel (h p (List.mem_cons_self p ps))

theorem reset_applyAnimationAtTime (sine : JNum → JNum) (a : Animation) (t : ℚ)
    (root : Elem) (hsel : a.targets ≠ ("svg"))
    (hck : ∀ pp ∈ a.params, paramKeyCleared pp.1 = true) :
    resetElementStates (applyAnimationAtTime sine a t root)
      = resetElementStates root := by
  unfold applyAnimationAtTime
  by_cases hneg : t - a.position < 0
  · rw [if_pos hneg]
  · rw [if_neg hneg]
    exact reset_paramFold sine a.targets (t - a.position) hsel a.params root hck

theorem reset_animFold (sine : JNum → JNum) (t : ℚ) :
    ∀ (l : List Animation) (r : Elem),
      (∀ a ∈ l, a.targets ≠ ("svg")) →
      (∀ a ∈ l, ∀ pp ∈ a.params, paramKeyCleared pp.1 = true) →
      resetElementStates (l.foldl (fun r a => applyAnimationAtTime sine a t r) r)
        = resetElementStates r := by
  intro l
  induction l with
  | nil => intro r _ _; rfl
  | cons a l ih =>
    intro r hsel hck
    simp only [List.foldl_cons]
    rw [ih _ (fun b hb => hsel b (List.mem_cons_of_mem a hb))
          (fun b hb => hck b (List.mem_cons_of_mem a hb))]
    exact reset_applyAnimationAtTime sine a t r (hsel a (List.mem_cons_self a l))
      (hck a (List.mem_cons_self a l))

theorem reset_seekToTime (sine : JNum → JNum) (animations : List Animation) (t : ℚ)
    (root : Elem) (hsel : ∀ a ∈ animations, a.targets ≠ ("svg"))
    (hck : ∀ a ∈ animations, ∀ pp ∈ a.params, paramKeyCleared pp.1 = true) :
    resetElementStates (seekToTime sine animations t root)
      = resetElementStates root := by
  unfold seekToTime
  rw [reset_animFold sine t animations (resetElementStates root) hsel hck]
  exact resetElementStates_idem root

theorem seekToTime_congr (sine : JNum → JNum) (animations : List Animation) (t : ℚ)
    (d d' : Elem) (h : resetElementStates d = resetElementStates d') :
    seekToTime sine animations t d = seekToTime sine animations t d' := by
  unfold seekToTime
  rw [h]

theorem generateFramesAux_frames_congr (sine : JNum → JNum)
    (animations : List Animation) (interval : ℚ) :
    ∀ (idxs : List ℕ) (d d' : Elem),
      resetElementStates d = resetElementStates d' →
      (generateFramesAux sine animations interval idxs d).1
        = (generateFramesAux sine animations interval idxs d').1 := by
  intro idxs
  induction idxs with
  | nil => intro d d' _; rfl
  | cons i idxs ih =>
    intro d d' h
    have hdoc := seekToTime_congr sine animations ((i : ℚ) * interval) d d' h
    simp only [generateFramesAux]
    rw [hdoc]

theorem generateFramesAux_reset_final (sine : JNum → JNum)
    (animations : List Animation) (interval : ℚ)
    (hsel : ∀ a ∈ animations, a.targets ≠ ("svg"))
    (hck : ∀ a ∈ animations, ∀ pp ∈ a.params, paramKeyCleared pp.1 = true) :
    ∀ (idxs : List ℕ) (d : Elem),
      resetElementStates (generateFramesAux sine animations interval idxs d).2
        = resetElementStates d := by
  intro idxs
  induction idxs with
  | nil => intro d; rfl
  | cons i idxs ih =>
    intro d
    simp only [generateFramesAux]
    rw [ih (seekToTime sine animations ((i : ℚ) * interval) d)]
    exact reset_seekToTime sine animations _ d hsel hck

/-- Claim C1 (amended): consuming the generator twice — two separate
`generateFrames` calls on the same renderer, the second starting from the
document state the first left behind — yields identical Frame sequences,
provided no entry targets the root via the literal `"svg"` selector and
every parameter key writes an attribute that `resetElementStates` strips
(which covers the whole enumerated animatable set: opacity, rotate,
translateX/x, translateY/y, scale, fill, stroke, r, ...).  Without those
provisos determinism fails, because the per-seek reset only touches strict
descendants and only the fixed attribute list, so attributes applied to the
root (or attributes outside the list) leak from the first run's final frame
into the second run (see the counterexample). -/
theorem C1_determinism_amended (sine : JNum → JNum) (animations : List Animation)
    (totalDuration fps : ℚ) (doc : Elem)
    (hsel : ∀ a ∈ animations, a.targets ≠ ("svg"))
    (hck : ∀ a ∈ animations, ∀ pp ∈ a.params, paramKeyCleared pp.1 = true) :
    (generateFrames sine animations totalDuration fps doc).1
      = (generateFrames sine animations totalDuration fps
          (generateFrames sine animations totalDuration fps doc).2).1 := by
  unfold generateFrames
  exact (generateFramesAux_frames_congr sine animations (1000 / fps) _ _ doc
    (generateFramesAux_reset_final sine animations (1000 / fps) hsel hck _ doc)).symm

/-- Claim C1 counterexample: with the root-targeting timeline
(`targets: "svg"`, opacity keyframe with 50 ms delay) the first
`generateFrames` run ends with `opacity="1"` set on the root `svg` element;
`resetElementStates` never touches the root, so the second run's frame 0
still carries that attribute while the first run's frame 0 did not — the two
runs' serialized frames differ. -/
theorem C1_counterexample :
    (generateFrames sineId exAnimsRoot (calculateTotalDuration exAnimsRoot)
        10 exDocRoot).1
      ≠ (generateFrames sineId exAnimsRoot (calculateTotalDuration exAnimsRoot) 10
          (generateFrames sineId exAnimsRoot (calculateTotalDuration exAnimsRoot)
            10 exDocRoot).2).1 := by
  decide

/-- Witness for C1: the amended determinism theorem at a concrete
child-targeting timeline. -/
theorem C1_witness :
    (generateFrames sineId exAnimsZero 1000 10 exDocRect).1
      = (generateFrames sineId exAnimsZero 1000 10
          (generateFrames sineId exAnimsZero 1000 10 exDocRect).2).1 :=
  C1_determinism_amended sineId exAnimsZero 1000 10 exDocRect (by decide) (by decide)

theorem setKey_mem_self (m : List (String × String)) (k v : String) :
    (k, v) ∈ setKey m k v := by
  unfold setKey
  split_ifs with hfind
  · rw [Option.isSome_iff_exists] at hfind
    obtain ⟨p, hp⟩ := hfind
    have hmem := List.mem_of_find?_eq_some hp
    have hpk : p.1 = k := by
      have := List.find?_some hp
      simpa using this
    exact List.mem_map.mpr ⟨p, hmem, by simp [hpk]⟩
  · exact List.mem_append_right m (List.mem_singleton.mpr rfl)

theorem setKey_mem_other (m : List (String × String)) (k v : String)
    (x : String × String) (hx : x ∈ m) (hxk : x.1 ≠ k) :
    x ∈ setKey m k v := by
  unfold setKey
  split_ifs with hfind
  · exact List.mem_map.mpr ⟨x, hx, by simp [hxk]⟩
  · exact List.mem_append_left _ hx

theorem setKey_subset (m : List (String × String)) (k v : String)
    (x : String × String) (hx : x ∈ setKey m k v) : x ∈ m ∨ x = (k, v) := by
  unfold setKey at hx
  split_ifs at hx with hfind
  · obtain ⟨y, hy, hxy⟩ := List.mem_map.mp hx
    by_cases hyk : y.1 = k
    · rw [if_pos hyk] at hxy
      exact Or.inr hxy.symm
    · rw [if_neg hyk] at hxy
      exact Or.inl (hxy ▸ hy)
  · rcases List.mem_append.mp hx with h | h
    · exact Or.inl h
    · exact Or.inr (List.mem_singleton.mp h)

theorem setKey_keys_nodup (m : List (String × String)) (k v : String)
    (h : (m.map Prod.fst).Nodup) : ((setKey m k v).map Prod.fst).Nodup := by
  unfold setKey
  split_ifs with hfind
  · have hkeys : (m.map (fun p => if p.1 = k then (k, v) else p)).map Prod.fst
        = m.map Prod.fst := by
      rw [List.map_map]
      refine List.map_congr_left ?_
      intro p _
      by_cases hp : p.1 = k
      · simp [Function.comp, hp]
      · simp [Function.comp, hp]
    rw [hkeys]
    exact h
  · have hnone : m.find? (fun p => p.1 = k) = none :=
      Option.not_isSome_iff_eq_none.mp hfind
    have hall := List.find?_eq_none.mp hnone
    rw [List.map_append]
    refine List.Nodup.append h (by simp) ?_
    intro a ha hb
    simp only [List.map_cons, List.map_nil, List.mem_singleton] at hb
    subst hb
    obtain ⟨p, hp, hpk⟩ := List.mem_map.mp ha
    have hnp := hall p hp
    simp only [decide_eq_true_eq] at hnp
    exact hnp hpk

theorem takeWhile_all_append (p : Char → Bool) (l1 : List Char) (a : Char)
    (l2 : List Char) (h1 : ∀ x ∈ l1, p x = true) (ha : p a = false) :
    (l1 ++ a :: l2).takeWhile p = l1 := by
  induction l1 with
  | nil =>
    simp only [List.nil_append, List.takeWhile_cons, ha]
    rfl
  | cons c l1 ih =>
    simp only [List.cons_append, List.takeWhile_cons,
      h1 c (List.mem_cons_self c l1), if_true]
    rw [ih (fun x hx => h1 x (List.mem_cons_of_mem c hx))]

theorem dropWhile_all_append (p : Char → Bool) (l1 : List Char) (a : Char)
    (l2 : List Char) (h1 : ∀ x ∈ l1, p x = true) (ha : p a = false) :
    (l1 ++ a :: l2).dropWhile p = a :: l2 := by
  induction l1 with
  | nil =>
    simp only [List.nil_append, List.dropWhile_cons, ha]
    rfl
  | cons c l1 ih =>
    simp only [List.cons_append, List.dropWhile_cons,
      h1 c (List.mem_cons_self c l1), if_true]
    exact ih (fun x hx => h1 x (List.mem_cons_of_mem c hx))

theorem scanTransformsAux_wf :
    ∀ (fuel : ℕ) (l : List Char) (kv : String × String),
      kv ∈ scanTransformsAux fuel l → wordKey kv.1 = true ∧ goodVal kv.2 = true := by
  intro fuel
  induction fuel with
  | zero =>
    intro l kv hkv
    simp [scanTransformsAux] at hkv
  | succ fuel ih =>
    intro l kv hkv
    cases l with
    | nil => simp [scanTransformsAux] at hkv
    | cons c rest =>
      unfold scanTransformsAux at hkv
      by_cases hw : isWordChar c = true
      · rw [if_pos hw] at hkv
        dsimp only at hkv
        split at hkv
        · split at hkv
          · split at hkv
            · exact ih rest kv hkv
            · rcases List.mem_cons.mp hkv with rfl | htail
              · constructor
                · simp only [wordKey, Bool.and_eq_true, Bool.not_eq_true',
                    List.all_eq_true]
                  constructor
                  · simp [List.takeWhile_cons, hw]
                  · intro x hx
                    exact List.mem_takeWhile_imp hx
                · simp only [goodVal, Bool.and_eq_true, Bool.not_eq_true',
                    List.all_eq_true]
                  constructor
                  · rename_i hempty
                    simpa using hempty
                  · intro x hx
                    have hmem := List.mem_takeWhile_imp hx
                    simpa using hmem
              · exact ih _ kv htail
          · exact ih rest kv hkv
        · exact ih rest kv hkv
      · rw [if_neg hw] at hkv
        exact ih rest kv hkv

theorem foldl_setKey_mem_wf (W : String × String → Prop) :
    ∀ (l acc : List (String × String)),
      (∀ kv ∈ acc, W kv) → (∀ kv ∈ l, W kv) →
      ∀ kv ∈ l.foldl (fun m kv => setKey m kv.1 kv.2) acc, W kv := by
  intro l
  induction l with
  | nil =>
    intro acc ha _ kv hkv
    exact ha kv hkv
  | cons x l ih =>
    intro acc ha hl kv hkv
    refine ih (setKey acc x.1 x.2) ?_ (fun y hy => hl y (List.mem_cons_of_mem x hy)) kv hkv
    intro y hy
    rcases setKey_subset acc x.1 x.2 y hy with h | h
    · exact ha y h
    · rw [h]
      exact hl x (List.mem_cons_self x l)

theorem parseTransformString_wf (s : String) :
    ∀ kv ∈ parseTransformString s, wordKey kv.1 = true ∧ goodVal kv.2 = true := by
  unfold parseTransformString
  exact foldl_setKey_mem_wf _ _ [] (by simp)
    (fun kv hkv => scanTransformsAux_wf _ _ kv hkv)

theorem foldl_setKey_nodup :
    ∀ (l acc : List (String × String)), (acc.map Prod.fst).Nodup →
      ((l.foldl (fun m kv => setKey m kv.1 kv.2) acc).map Prod.fst).Nodup := by
  intro l
  induction l with
  | nil =>
    intro acc h
    exact h
  | cons x l ih =>
    intro acc h
    exact ih _ (setKey_keys_nodup acc x.1 x.2 h)

theorem parseTransformString_nodup (s : String) :
    ((parseTransformString s).map Prod.fst).Nodup := by
  unfold parseTransformString
  exact foldl_setKey_nodup _ [] (by simp)

theorem scan_space (fuel : ℕ) (d : List Char) :
    scanTransformsAux (fuel + 1) (' ' :: d) = scanTransformsAux fuel d := by
  conv_lhs => unfold scanTransformsAux
  rw [if_neg (by decide)]

theorem string_mk_data (s : String) : String.mk s.data = s := rfl

theorem scan_entry (k v : String) (tail : List Char) (fuel : ℕ)
    (hkne : k.data ≠ []) (hkall : ∀ x ∈ k.data, isWordChar x = true)
    (hvne : v.data ≠ []) (hvall : ∀ x ∈ v.data, (x != ')') = true)
    (hfuel : 1 ≤ fuel) :
    scanTransformsAux fuel (k.data ++ '(' :: (v.data ++ ')' :: tail))
      = (k, v) :: scanTransformsAux (fuel - 1) tail := by
  obtain ⟨c, ktail, hk⟩ := List.exists_cons_of_ne_nil hkne
  obtain ⟨f2, rfl⟩ : ∃ f2, fuel = f2 + 1 := ⟨fuel - 1, by omega⟩
  have hcw : isWordChar c = true := hkall c (by rw [hk]; exact List.mem_cons_self c ktail)
  have htake : List.takeWhile isWordChar (k.data ++ '(' :: (v.data ++ ')' :: tail))
      = k.data := takeWhile_all_append isWordChar k.data '(' _ hkall (by decide)
  have hdrop : List.dropWhile isWordChar (k.data ++ '(' :: (v.data ++ ')' :: tail))
      = '(' :: (v.data ++ ')' :: tail) :=
    dropWhile_all_append isWordChar k.data '(' _ hkall (by decide)
  have hvtake : List.takeWhile (fun ch => ch != ')') (v.data ++ ')' :: tail) = v.data :=
    takeWhile_all_append _ v.data ')' tail hvall (by decide)
  have hvdrop : List.dropWhile (fun ch => ch != ')') (v.data ++ ')' :: tail)
      = ')' :: tail :=
    dropWhile_all_append _ v.data ')' tail hvall (by decide)
  conv_lhs => rw [hk, List.cons_append]
  conv_lhs => unfold scanTransformsAux
  rw [if_pos hcw]
  dsimp only
  rw [← List.cons_append, ← hk, htake, hdrop]
  rw [show List.dropWhile (fun ch => ch.isWhitespace) ('(' :: (v.data ++ ')' :: tail))
      = '(' :: (v.data ++ ')' :: tail) from by
    rw [List.dropWhile_cons, if_neg (by decide)]]
  split
  next remaining heq =>
    injection heq with h1 h2
    subst h2
    rw [hvdrop]
    split
    next rem2 heq2 =>
      injection heq2 with h3 h4
      subst h4
      rw [hvtake]
      rw [if_neg (by simpa using hvne)]
      rw [string_mk_data, string_mk_data]
      rfl
    next x hne2 =>
      exact (hne2 tail rfl).elim
  next x hne2 =>
    exact (hne2 (v.data ++ ')' :: tail) rfl).elim

theorem scan_serialize :
    ∀ (m : List (String × String)),
      (∀ kv ∈ m, wordKey kv.1 = true ∧ goodVal kv.2 = true) →
      ∀ fuel, (serializeTransforms m).data.length ≤ fuel →
        scanTransformsAux fuel (serializeTransforms m).data = m := by
  intro m
  induction m with
  | nil =>
    intro _ fuel _
    cases fuel <;> rfl
  | cons kv rest ih =>
    obtain ⟨k, v⟩ := kv
    intro hwf fuel hlen
    obtain ⟨hkw, hvg⟩ := hwf (k, v) (List.mem_cons_self _ _)
    have hkne : k.data ≠ [] := by
      simp only [wordKey, Bool.and_eq_true, Bool.not_eq_true'] at hkw
      simpa using hkw.1
    have hkall : ∀ x ∈ k.data, isWordChar x = true := by
      simp only [wordKey, Bool.and_eq_true, List.all_eq_true] at hkw
      exact fun x hx => hkw.2 x hx
    have hvne : v.data ≠ [] := by
      simp only [goodVal, Bool.and_eq_true, Bool.not_eq_true'] at hvg
      simpa using hvg.1
    have hvall : ∀ x ∈ v.data, (x != ')') = true := by
      simp only [goodVal, Bool.and_eq_true, List.all_eq_true] at hvg
      exact fun x hx => by simpa using hvg.2 x hx
    cases rest with
    | nil =>
      have hdata : (serializeTransforms [(k, v)]).data
          = k.data ++ '(' :: (v.data ++ [')']) := by
        show (k ++ ("(") ++ v ++ (")")).data = _
        simp [String.data_append, List.append_assoc]
      rw [hdata] at hlen ⊢
      have hlen2 : 1 ≤ fuel := by
        have := congrArg List.length hdata
        simp only [List.length_append, List.length_cons] at hlen
        omega
      rw [scan_entry k v [] fuel hkne hkall hvne hvall hlen2]
      have : scanTransformsAux (fuel - 1) [] = [] := by
        cases h : fuel - 1 <;> rfl
      rw [this]
    | cons kv2 rest2 =>
      have hdata : (serializeTransforms ((k, v) :: kv2 :: rest2)).data
          = k.data ++ '(' :: (v.data ++ ')' ::
              (' ' :: (serializeTransforms (kv2 :: rest2)).data)) := by
        show (k ++ ("(") ++ v ++ (")") ++ (" ")
          ++ serializeTransforms (kv2 :: rest2)).data = _
        simp [String.data_append, List.append_assoc]
      rw [hdata] at hlen ⊢
      have hlens : k.data.length + v.data.length + 3
          + (serializeTransforms (kv2 :: rest2)).data.length ≤ fuel := by
        simp only [List.length_append, List.length_cons] at hlen
        omega
      have h1 : 1 ≤ fuel := by omega
      rw [scan_entry k v _ fuel hkne hkall hvne hvall h1]
      obtain ⟨f3, hf3⟩ : ∃ f3, fuel - 1 = f3 + 1 := by
        refine ⟨fuel - 2, ?_⟩
        have hkpos : 1 ≤ k.data.length := by
          cases hd : k.data with
          | nil => exact absurd hd hkne
          | cons _ _ => simp [hd]
        omega
      rw [hf3, scan_space]
      rw [ih (fun kv hkv => hwf kv (List.mem_cons_of_mem _ hkv)) f3 (by omega)]

theorem parse_serializeTransforms (m : List (String × String))
    (hwf : ∀ kv ∈ m, wordKey kv.1 = true ∧ goodVal kv.2 = true)
    (hnodup : (m.map Prod.fst).Nodup) :
    parseTransformString (serializeTransforms m) = m := by
  unfold parseTransformString
  rw [show (serializeTransforms m).length
      = (serializeTransforms m).data.length from rfl]
  rw [scan_serialize m hwf _ (le_refl _)]
  suffices h : ∀ (l acc : List (String × String)), ((acc ++ l).map Prod.fst).Nodup →
      l.foldl (fun a kv => setKey a kv.1 kv.2) acc = acc ++ l by
    simpa using h m [] (by simpa using hnodup)
  intro l
  induction l with
  | nil =>
    intro acc _
    simp
  | cons x l ih =>
    intro acc h
    simp only [List.foldl_cons]
    have hxacc : x.1 ∉ acc.map Prod.fst := by
      rw [List.map_append] at h
      have hdisj := List.disjoint_of_nodup_append h
      intro hcon
      exact hdisj hcon (by simp)
    have hfind : ¬((acc.find? (fun p => p.1 = x.1)).isSome = true) := by
      rw [Option.isSome_iff_exists]
      push_neg
      intro p hp
      have hpm := List.mem_of_find?_eq_some hp
      have hpk : p.1 = x.1 := by simpa using List.find?_some hp
      exact absurd (List.mem_map.mpr ⟨p, hpm, hpk⟩) hxacc
    have hsetKey : setKey acc x.1 x.2 = acc ++ [x] := by
      unfold setKey
      rw [if_neg hfind]
    rw [hsetKey, ih (acc ++ [x]) (by simpa [List.append_assoc] using h)]
    simp

theorem find?_mapUpdate :
    ∀ (l : List (String × String)) (k v : String),
      (l.find? (fun p => p.1 = k)).isSome = true →
      (l.map (fun p => if p.1 = k then (k, v) else p)).find? (fun p => p.1 = k)
        = some (k, v) := by
  intro l k v
  induction l with
  | nil =>
    intro h
    simp at h
  | cons p l ih =>
    intro h
    simp only [List.map_cons]
    by_cases hp : p.1 = k
    · rw [if_pos hp]
      exact List.find?_cons_of_pos _ (by simp)
    · rw [if_neg hp]
      rw [List.find?_cons_of_neg _ (by simp [hp])]
      apply ih
      rw [List.find?_cons_of_neg _ (by simp [hp])] at h
      exact h

theorem find?_setKey (l : List (String × String)) (k v : String) :
    (setKey l k v).find? (fun p => p.1 = k) = some (k, v) := by
  unfold setKey
  split_ifs with hfind
  · exact find?_mapUpdate l k v hfind
  · rw [List.find?_append, Option.not_isSome_iff_eq_none.mp hfind]
    simp

theorem getAttribute_setAttribute (e : Elem) (k v : String) :
    (e.setAttribute k v).getAttribute k = some v := by
  cases e with
  | mk t a cs =>
    simp only [Elem.setAttribute, Elem.getAttribute, find?_setKey]
    rfl

theorem applyParameterToElement_family (e : Elem) (p : String) (v : JSVal)
    (f s : String) (h : transformFamilyFunc p = some (f, s)) :
    applyParameterToElement e p v = applyTransform e f (jsString v ++ s) := by
  unfold transformFamilyFunc at h
  unfold applyParameterToElement
  split_ifs at h ⊢ <;> simp_all
  obtain ⟨rfl, rfl⟩ := h
  rw [String.append_empty]

theorem transformFamilyFunc_word (p f s : String)
    (h : transformFamilyFunc p = some (f, s)) : wordKey f = true := by
  unfold transformFamilyFunc at h
  split_ifs at h <;> simp_all <;> obtain ⟨rfl, rfl⟩ := h <;> decide

theorem applyTransform_eq (e : Elem) (f w : String) :
    applyTransform e f w = e.setAttribute ("transform")
      (serializeTransforms (setKey (parseTransformString
        (((e.getAttribute ("transform")).getD ("")))) f w)) := rfl

/-- Claim C6: applying two transform-family parameters in sequence to any
element merges both functions into the single `transform` attribute: the
existing attribute is parsed into a map keyed by function name, only the
applied function's entry is overwritten/inserted, and the re-serialized
string preserves every other function.  Quantified over any two parameters
with distinct transform function names (the claim's own mechanism —
"overwrite the entry for this function" — makes aliased pairs such as `x`
/`translateX` a single function), and over values whose rendered strings
are nonempty and `)`-free (true of every numeric value). -/
theorem C6_transform_compose (e : Elem) (p1 p2 : String) (v1 v2 : JSVal)
    (f1 s1 f2 s2 : String)
    (h1 : transformFamilyFunc p1 = some (f1, s1))
    (h2 : transformFamilyFunc p2 = some (f2, s2))
    (hne : f1 ≠ f2)
    (hv1 : goodVal (jsString v1 ++ s1) = true)
    (hv2 : goodVal (jsString v2 ++ s2) = true) :
    ((f1, jsString v1 ++ s1) ∈ parseTransformString
        ((((applyParameterToElement (applyParameterToElement e p1 v1) p2 v2).getAttribute
          ("transform")).getD (""))))
    ∧ ((f2, jsString v2 ++ s2) ∈ parseTransformString
        ((((applyParameterToElement (applyParameterToElement e p1 v1) p2 v2).getAttribute
          ("transform")).getD (""))))
    ∧ ∀ kv ∈ parseTransformString (((e.getAttribute ("transform")).getD (""))),
        kv.1 ≠ f1 → kv.1 ≠ f2 → kv ∈ parseTransformString
          ((((applyParameterToElement (applyParameterToElement e p1 v1) p2 v2).getAttribute
            ("transform")).getD (""))) := by
  rw [applyParameterToElement_family e p1 v1 f1 s1 h1,
    applyParameterToElement_family _ p2 v2 f2 s2 h2,
    applyTransform_eq, applyTransform_eq]
  set m0 := parseTransformString (((e.getAttribute ("transform")).getD (""))) with hm0
  set m1 := setKey m0 f1 (jsString v1 ++ s1) with hm1
  have hm1wf : ∀ kv ∈ m1, wordKey kv.1 = true ∧ goodVal kv.2 = true := by
    intro kv hkv
    rcases setKey_subset m0 f1 _ kv hkv with h | h
    · exact parseTransformString_wf _ kv h
    · rw [h]
      exact ⟨transformFamilyFunc_word p1 f1 s1 h1, hv1⟩
  have hm1nodup : (m1.map Prod.fst).Nodup :=
    setKey_keys_nodup m0 f1 _ (parseTransformString_nodup _)
  have hget1 : ((e.setAttribute ("transform") (serializeTransforms m1)).getAttribute
      ("transform")).getD ("") = serializeTransforms m1 := by
    rw [getAttribute_setAttribute]
    rfl
  rw [hget1, parse_serializeTransforms m1 hm1wf hm1nodup]
  have hm2wf : ∀ kv ∈ setKey m1 f2 (jsString v2 ++ s2),
      wordKey kv.1 = true ∧ goodVal kv.2 = true := by
    intro kv hkv
    rcases setKey_subset m1 f2 _ kv hkv with h | h
    · exact hm1wf kv h
    · rw [h]
      exact ⟨transformFamilyFunc_word p2 f2 s2 h2, hv2⟩
  have hm2nodup : ((setKey m1 f2 (jsString v2 ++ s2)).map Prod.fst).Nodup :=
    setKey_keys_nodup m1 f2 _ hm1nodup
  have hget2 : (((e.setAttribute ("transform") (serializeTransforms m1)).setAttribute
      ("transform") (serializeTransforms (setKey m1 f2 (jsString v2 ++ s2)))).getAttribute
      ("transform")).getD ("")
      = serializeTransforms (setKey m1 f2 (jsString v2 ++ s2)) := by
    rw [getAttribute_setAttribute]
    rfl
  rw [hget2, parse_serializeTransforms _ hm2wf hm2nodup]
  refine ⟨?_, ?_, ?_⟩
  · exact setKey_mem_other _ f2 _ _ (setKey_mem_self m0 f1 _) hne
  · exact setKey_mem_self m1 f2 _
  · intro kv hkv hk1 hk2
    exact setKey_mem_other _ f2 _ _ (setKey_mem_other _ f1 _ _ hkv hk1) hk2

/-- Witness for C6: `rotate = 45` then `translateX = 10` on a bare `rect`
yields a transform whose parsed map contains both `rotate(45deg)` and
`translateX(10px)`. -/
theorem C6_witness :
    ((("rotate"), jsString (JSVal.num (JNum.val 45)) ++ ("deg")) ∈ parseTransformString
        ((((applyParameterToElement (applyParameterToElement (⟨("rect"), [], []⟩ : Elem)
          ("rotate") (JSVal.num (JNum.val 45))) ("translateX")
          (JSVal.num (JNum.val 10))).getAttribute ("transform")).getD (""))))
    ∧ ((("translateX"), jsString (JSVal.num (JNum.val 10)) ++ ("px")) ∈ parseTransformString
        ((((applyParameterToElement (applyParameterToElement (⟨("rect"), [], []⟩ : Elem)
          ("rotate") (JSVal.num (JNum.val 45))) ("translateX")
          (JSVal.num (JNum.val 10))).getAttribute ("transform")).getD ("")))) := by
  have h := C6_transform_compose (⟨("rect"), [], []⟩ : Elem) ("rotate") ("translateX")
    (JSVal.num (JNum.val 45)) (JSVal.num (JNum.val 10)) ("rotate") ("deg")
    ("translateX") ("px") rfl rfl (by decide) (by decide) (by decide)
  exact ⟨h.1, h.2.1⟩

end SvgMotion
